import Mathlib

/-!
Verification of the shot-feasibility solver and heatmap scanner.

The source computes over IEEE doubles; this development embeds the code
over exact rationals, with the transcendental library functions that the
code calls (Math.cos, Math.sin, Math.atan2, Math.sqrt and the constant
Math.PI) abstracted into a structure of rational-valued functions.  All
algebraic structure of the code (control flow, comparisons, exact loop
iteration counts, record construction) is preserved exactly; loops are
translated to folds or fuel recursion over the exact sequence of indices
the source loop visits.
-/

set_option maxRecDepth 4000

/-- Abstraction of the JavaScript Math library functions used by the code.
The code only ever applies these pointwise; every theorem below holds for
every interpretation of this structure (hypotheses on particular fields are
stated explicitly where a claim needs them). -/
structure JSMath where
  cos : ℚ → ℚ
  sin : ℚ → ℚ
  atan2 : ℚ → ℚ → ℚ
  sqrt : ℚ → ℚ
  pi : ℚ

-- ── constants.ts ─────────────────────────────────────────────

/-- FIELD_LENGTH = 16.54 (meters, X dimension). -/
def FIELD_LENGTH : ℚ := 827/50

/-- FIELD_WIDTH = 8.07 (meters, Y dimension). -/
def FIELD_WIDTH : ℚ := 807/100

/-- GRAVITY = 9.8. -/
def GRAVITY : ℚ := 49/5

/-- DISPLAY_BUFFER = 1.5 (meters past target on field view). -/
def DISPLAY_BUFFER : ℚ := 3/2

/-- BALL_MASS = 0.2268 kg. -/
def BALL_MASS : ℚ := 567/2500

/-- BALL_DIAMETER = 0.150 m. -/
def BALL_DIAMETER : ℚ := 3/20

/-- DRAG_COEFFICIENT = 0.47. -/
def DRAG_COEFFICIENT : ℚ := 47/100

/-- AIR_DENSITY = 1.225. -/
def AIR_DENSITY : ℚ := 49/40

/-- DRAG_K = 0.5 * AIR_DENSITY * DRAG_COEFFICIENT * π * (BALL_DIAMETER/2)^2
/ BALL_MASS; π is the abstracted Math.PI. -/
def DRAG_K (M : JSMath) : ℚ :=
  1/2 * AIR_DENSITY * DRAG_COEFFICIENT * M.pi * (BALL_DIAMETER / 2)^2 / BALL_MASS

-- ── types.ts ─────────────────────────────────────────────────

/-- The Params configuration record (types.ts). -/
structure Params where
  speedMode : String
  minSpeed : ℚ
  maxSpeed : ℚ
  fixedSpeed : ℚ
  angleMode : String
  minAngle : ℚ
  maxAngle : ℚ
  fixedAngle : ℚ
  tangentialVelo : ℚ
  radialVelo : ℚ
  gridRes : ℚ
  shooterZ : ℚ
  ceilingHeight : ℚ
  targetX : ℚ
  targetY : ℚ
  targetZ : ℚ
  maxVyAtTarget : ℚ
  maxLateralDrift : ℚ
  dragEnabled : Bool
deriving DecidableEq, Repr

/-- DragConfig: drag flag and precomputed coefficient. -/
structure DragConfig where
  enabled : Bool
  k : ℚ
deriving DecidableEq, Repr

/-- The ShotResult record (types.ts), exactly the fields the physics engine
stores in validateAndBuildResult. -/
structure ShotResult where
  shotSpeed : ℚ
  hoodAngleDeg : ℚ
  flightTime : ℚ
  vyAtTarget : ℚ
  descentAngleDeg : ℚ
  apexHeight : ℚ
  heightError : ℚ
  lateralDrift : ℚ
  turretAdjRad : ℚ
  range : ℚ
deriving DecidableEq, Repr

/-- SweepResult {speed, angle, error}; error starts as Infinity in the
source, modelled by WithTop. -/
structure SweepResult where
  speed : ℚ
  angle : ℚ
  error : WithTop ℚ
deriving DecidableEq, Repr

/-- RefineResult {angle, shotTime, turretAdjRad}. -/
structure RefineResult where
  angle : ℚ
  shotTime : ℚ
  turretAdjRad : ℚ
deriving DecidableEq, Repr

/-- Result record of simulateToRange. -/
structure SimResult where
  z : ℚ
  y : ℚ
  t : ℚ
  vx : ℚ
  vy : ℚ
  vz : ℚ
  apexZ : ℚ
deriving DecidableEq, Repr

-- ── physics.ts: simulateToRange ──────────────────────────────

/-- dragFromParams: build a DragConfig from Params. -/
def dragFromParams (M : JSMath) (p : Params) : DragConfig :=
  { enabled := p.dragEnabled, k := DRAG_K M }

/-- Full integration state of the simulateToRange loop:
position, velocity, elapsed time and running apex. -/
structure SimState where
  x : ℚ
  y : ℚ
  z : ℚ
  vx : ℚ
  vy : ℚ
  vz : ℚ
  t : ℚ
  apexZ : ℚ
deriving DecidableEq, Repr

/-- The acceleration part of the derivative evaluation in simulateToRange:
drag deceleration −k·|v|·v⃗ plus gravity on z.  |v| is Math.sqrt of the
squared speed. -/
def simAccel (M : JSMath) (k vx vy vz : ℚ) : ℚ × ℚ × ℚ :=
  let speed := M.sqrt (vx * vx + vy * vy + vz * vz)
  let drag := k * speed
  (-drag * vx, -drag * vy, -GRAVITY - drag * vz)

/-- One RK4 step (DT = 0.002) of the simulateToRange loop, including the
t += DT and apex update that follow the integration in the source. -/
def simStep (M : JSMath) (k : ℚ) (s : SimState) : SimState :=
  let DT : ℚ := 1/500
  let a1 := simAccel M k s.vx s.vy s.vz
  let hvx2 := s.vx + a1.1 * DT / 2
  let hvy2 := s.vy + a1.2.1 * DT / 2
  let hvz2 := s.vz + a1.2.2 * DT / 2
  let a2 := simAccel M k hvx2 hvy2 hvz2
  let hvx3 := s.vx + a2.1 * DT / 2
  let hvy3 := s.vy + a2.2.1 * DT / 2
  let hvz3 := s.vz + a2.2.2 * DT / 2
  let a3 := simAccel M k hvx3 hvy3 hvz3
  let fvx4 := s.vx + a3.1 * DT
  let fvy4 := s.vy + a3.2.1 * DT
  let fvz4 := s.vz + a3.2.2 * DT
  let a4 := simAccel M k fvx4 fvy4 fvz4
  let x := s.x + DT / 6 * (s.vx + 2 * hvx2 + 2 * hvx3 + fvx4)
  let y := s.y + DT / 6 * (s.vy + 2 * hvy2 + 2 * hvy3 + fvy4)
  let z := s.z + DT / 6 * (s.vz + 2 * hvz2 + 2 * hvz3 + fvz4)
  let vx := s.vx + DT / 6 * (a1.1 + 2 * a2.1 + 2 * a3.1 + a4.1)
  let vy := s.vy + DT / 6 * (a1.2.1 + 2 * a2.2.1 + 2 * a3.2.1 + a4.2.1)
  let vz := s.vz + DT / 6 * (a1.2.2 + 2 * a2.2.2 + 2 * a3.2.2 + a4.2.2)
  let t := s.t + DT
  { x := x, y := y, z := z, vx := vx, vy := vy, vz := vz, t := t,
    apexZ := if z > s.apexZ then z else s.apexZ }

/-- Linear interpolation of the crossing state within the step from prev to
cur, exactly as in simulateToRange (the degenerate px = x case yields
fraction 0). -/
def interpState (range : ℚ) (prev cur : SimState) : SimResult :=
  let frac := if prev.x = cur.x then 0 else (range - prev.x) / (cur.x - prev.x)
  let zi := prev.z + frac * (cur.z - prev.z)
  { z := zi,
    y := prev.y + frac * (cur.y - prev.y),
    t := prev.t + frac * (1/500),
    vx := prev.vx + frac * (cur.vx - prev.vx),
    vy := prev.vy + frac * (cur.vy - prev.vy),
    vz := prev.vz + frac * (cur.vz - prev.vz),
    apexZ := max prev.apexZ zi }

/-- The while loop of simulateToRange with an explicit iteration budget.
Each pass checks the t < MAX_T guard, performs one RK4 step, then the
ground check and the range-crossing check, in source order.  Since t
advances by exactly DT = 1/500 per pass from t = 0, the guard fails after
at most 2500 passes, so a budget of 2501 makes the budget case
unreachable. -/
def simLoop (M : JSMath) (k range shooterZ : ℚ) : ℕ → SimState → Option SimResult
  | 0, _ => none
  | n + 1, s =>
    if s.t < 5 then
      let s2 := simStep M k s
      if s2.z < -shooterZ then none
      else if range ≤ s2.x then some (interpState range s s2)
      else simLoop M k range shooterZ n s2
    else none

/-- Initial state of the integration: origin, the given launch velocity,
time zero. -/
def simInit (vx0 vy0 vz0 : ℚ) : SimState :=
  { x := 0, y := 0, z := 0, vx := vx0, vy := vy0, vz := vz0, t := 0, apexZ := 0 }

/-- simulateToRange: numerically integrate a 3-D trajectory with quadratic
drag using RK4; stop and interpolate when x reaches range, fail on ground
contact or on the 5-second cap. -/
def simulateToRange (M : JSMath) (vx0 vy0 vz0 range shooterZ k : ℚ) : Option SimResult :=
  simLoop M k range shooterZ 2501 (simInit vx0 vy0 vz0)

/-- The state after n RK4 steps from the initial state. -/
def simIter (M : JSMath) (k : ℚ) (n : ℕ) (s : SimState) : SimState :=
  (simStep M k)^[n] s

/-- Exit condition tested after each step: ground contact or range
crossing. -/
def simExit (range shooterZ : ℚ) (s : SimState) : Prop :=
  s.z < -shooterZ ∨ range ≤ s.x

instance (range shooterZ : ℚ) (s : SimState) : Decidable (simExit range shooterZ s) := by
  unfold simExit; infer_instance

/-- Index of the first step (searching count steps starting after step
start) whose post-step state satisfies the exit condition. -/
def findExitFrom (M : JSMath) (k range shooterZ : ℚ) (s0 : SimState) : ℕ → ℕ → Option ℕ
  | _, 0 => none
  | start, count + 1 =>
    if simExit range shooterZ (simIter M k (start + 1) s0) then some start
    else findExitFrom M k range shooterZ s0 (start + 1) count

/-- Index i < 2500 such that step i+1 is the first step whose state exits
(ground or range), if any exists within the 5-second cap. -/
def simFirstExit (M : JSMath) (k range shooterZ vx0 vy0 vz0 : ℚ) : Option ℕ :=
  findExitFrom M k range shooterZ (simInit vx0 vy0 vz0) 0 2500

-- ── physics.ts: sweepSpeedAndAngle ───────────────────────────

/-- The exact list of angle values visited by the inner loop
for (a = minAngle; a <= maxAngle + 0.001; a += 0.01) with the body
computing angle = min(a, maxAngle), and the break after the first body
pass when maxAngle - minAngle < 0.002 (fixed angle).  Over exact
rationals the loop visits a = minAngle + i/100 for every i with
minAngle + i/100 ≤ maxAngle + 1/1000, i.e. i ≤ ⌊(maxAngle + 1/1000 -
minAngle)·100⌋ (the loop body runs at least once whenever the entry test
holds, and in the fixed-angle branch exactly once). -/
def angleList (minAngle maxAngle : ℚ) : List ℚ :=
  if maxAngle - minAngle < 1/500 then
    if minAngle ≤ maxAngle + 1/1000 then [min minAngle maxAngle] else []
  else
    (List.range ((⌊(maxAngle + 1/1000 - minAngle) * 100⌋).toNat + 1)).map
      (fun i => min (minAngle + (i : ℚ) * (1/100)) maxAngle)

/-- The (speed, angle) grid swept by sweepSpeedAndAngle: speeds
v = minSpeed + si·speedStep for si < speedSteps (speedStep =
(maxSpeed-minSpeed)/(speedSteps-1) when speedSteps > 1, else 0), crossed
with the angle list, in loop order.  Degree-to-radian conversion uses the
abstracted Math.PI. -/
def sweepCandidates (M : JSMath) (minSpeed maxSpeed : ℚ) (speedSteps : ℕ)
    (minAngleDeg maxAngleDeg : ℚ) : List (ℚ × ℚ) :=
  let minAngle := minAngleDeg * M.pi / 180
  let maxAngle := maxAngleDeg * M.pi / 180
  let speedStep := if 1 < speedSteps then (maxSpeed - minSpeed) / ((speedSteps : ℚ) - 1) else 0
  ((List.range speedSteps).map (fun si => minSpeed + (si : ℚ) * speedStep)).flatMap
    (fun v => (angleList minAngle maxAngle).map (fun a => (v, a)))

/-- Vacuum apex height of a sweep candidate:
shooterZ + (v·sinθ)² / (2g). -/
def candApex (M : JSMath) (shooterZ : ℚ) (c : ℚ × ℚ) : ℚ :=
  shooterZ + (c.1 * M.sin c.2) * (c.1 * M.sin c.2) / (2 * GRAVITY)

/-- Effective radial speed of a sweep candidate: hSpeed·cos(turretAdj) +
radialVelo with turretAdj = atan2(-tangentialVelo, hSpeed). -/
def candEff (M : JSMath) (tangentialVelo radialVelo : ℚ) (c : ℚ × ℚ) : ℚ :=
  let hSpeed := c.1 * M.cos c.2
  hSpeed * M.cos (M.atan2 (-tangentialVelo) hSpeed) + radialVelo

/-- A candidate passes the sweep filters when its apex clears the ceiling
and its effective radial speed exceeds 0.1. -/
def candPass (M : JSMath) (tangentialVelo radialVelo shooterZ ceilingHeight : ℚ)
    (c : ℚ × ℚ) : Prop :=
  candApex M shooterZ c ≤ ceilingHeight ∧ 1/10 < candEff M tangentialVelo radialVelo c

instance (M : JSMath) (tv rv sz ch : ℚ) (c : ℚ × ℚ) :
    Decidable (candPass M tv rv sz ch c) := by
  unfold candPass; infer_instance

/-- Vacuum flight time of a sweep candidate: range / effective speed. -/
def candT (M : JSMath) (tangentialVelo radialVelo range : ℚ) (c : ℚ × ℚ) : ℚ :=
  range / candEff M tangentialVelo radialVelo c

/-- Vacuum height error of a sweep candidate:
|v·sinθ·t − ½·g·t² − heightDiff|. -/
def candErr (M : JSMath) (tangentialVelo radialVelo range heightDiff : ℚ) (c : ℚ × ℚ) : ℚ :=
  let t := candT M tangentialVelo radialVelo range c
  |c.1 * M.sin c.2 * t - 1/2 * GRAVITY * t * t - heightDiff|

/-- Vertical velocity at the target of a sweep candidate:
v·sinθ − g·t. -/
def candVy (M : JSMath) (tangentialVelo radialVelo range : ℚ) (c : ℚ × ℚ) : ℚ :=
  c.1 * M.sin c.2 - GRAVITY * candT M tangentialVelo radialVelo range c

/-- A candidate is descending when its arrival vertical velocity is below
the minDescentRate threshold −0.5. -/
def candDesc (M : JSMath) (tangentialVelo radialVelo range : ℚ) (c : ℚ × ℚ) : Prop :=
  candVy M tangentialVelo radialVelo range c < -(1/2)

instance (M : JSMath) (tv rv rg : ℚ) (c : ℚ × ℚ) :
    Decidable (candDesc M tv rv rg c) := by
  unfold candDesc; infer_instance

/-- A descending candidate is viable when its height error is under the
sweepErrorThreshold 0.5. -/
def candViable (M : JSMath) (tangentialVelo radialVelo range heightDiff : ℚ) (c : ℚ × ℚ) : Prop :=
  candErr M tangentialVelo radialVelo range heightDiff c < 1/2

instance (M : JSMath) (tv rv rg hd : ℚ) (c : ℚ × ℚ) :
    Decidable (candViable M tv rv rg hd c) := by
  unfold candViable; infer_instance

/-- Mutable state of the sweep loop: best candidate so far and the
foundDescending flag; bestError starts at Infinity (⊤). -/
structure SweepState where
  bestSpeed : ℚ
  bestAngle : ℚ
  bestError : WithTop ℚ
  bestVy : ℚ
  found : Bool
deriving DecidableEq, Repr

/-- One pass of the sweep loop body for candidate c = (v, angle): the two
filter continues, then the descending-candidate selection policy
(first-descending always accepted; viable beats marginal; among viable
prefer steeper descent; among marginal prefer lower error), else the
non-descending fallback kept only while no descending candidate exists. -/
def sweepBody (M : JSMath) (tangentialVelo radialVelo range heightDiff shooterZ ceilingHeight : ℚ)
    (st : SweepState) (c : ℚ × ℚ) : SweepState :=
  if candPass M tangentialVelo radialVelo shooterZ ceilingHeight c then
    if candDesc M tangentialVelo radialVelo range c then
      let newViable := candViable M tangentialVelo radialVelo range heightDiff c
      let bestViable := st.bestError < ((1/2 : ℚ) : WithTop ℚ)
      if st.found = false ∨ (newViable ∧ ¬bestViable) ∨
          (newViable ∧ bestViable ∧ candVy M tangentialVelo radialVelo range c < st.bestVy) ∨
          (¬newViable ∧ ¬bestViable ∧
            ((candErr M tangentialVelo radialVelo range heightDiff c : WithTop ℚ) < st.bestError)) then
        { bestSpeed := c.1, bestAngle := c.2,
          bestError := (candErr M tangentialVelo radialVelo range heightDiff c : WithTop ℚ),
          bestVy := candVy M tangentialVelo radialVelo range c, found := true }
      else st
    else if st.found = false ∧
        ((candErr M tangentialVelo radialVelo range heightDiff c : WithTop ℚ) < st.bestError) then
      { st with
        bestSpeed := c.1, bestAngle := c.2,
        bestError := (candErr M tangentialVelo radialVelo range heightDiff c : WithTop ℚ) }
    else st
  else st

/-- sweepSpeedAndAngle: 2D sweep over (speed, angle) for the best Newton
seed.  The loops become a fold of the body over the exact candidate
grid. -/
def sweepSpeedAndAngle (M : JSMath) (minSpeed maxSpeed : ℚ) (speedSteps : ℕ)
    (minAngleDeg maxAngleDeg tangentialVelo radialVelo range heightDiff shooterZ ceilingHeight : ℚ) :
    SweepResult :=
  let minAngle := minAngleDeg * M.pi / 180
  let maxAngle := maxAngleDeg * M.pi / 180
  let st0 : SweepState :=
    { bestSpeed := (minSpeed + maxSpeed) / 2, bestAngle := (minAngle + maxAngle) / 2,
      bestError := ⊤, bestVy := 0, found := false }
  let fin := (sweepCandidates M minSpeed maxSpeed speedSteps minAngleDeg maxAngleDeg).foldl
    (sweepBody M tangentialVelo radialVelo range heightDiff shooterZ ceilingHeight) st0
  { speed := fin.bestSpeed, angle := fin.bestAngle, error := fin.bestError }

-- ── physics.ts: evalResiduals / refineShot ───────────────────

/-- Return record of evalResiduals. -/
structure ResidualEval where
  f1 : ℚ
  f2 : ℚ
  effRadSpeed : ℚ
  shotTime : ℚ
  vz : ℚ
deriving DecidableEq, Repr

/-- evalResiduals: the two residuals for the joint solver (height error f1
and lateral drift f2) plus flight data; none when the effective radial
speed is ≤ 0.1.  When drag is enabled the residuals come from numerical
simulation with shooterZ = 1000 (ground check effectively disabled);
otherwise from the closed vacuum form. -/
def evalResiduals (M : JSMath) (speed theta phi radialVelo tangentialVelo range heightDiff : ℚ)
    (drag : DragConfig) : Option ResidualEval :=
  let cosT := M.cos theta
  let sinT := M.sin theta
  let hSpeed := speed * cosT
  let effRadSpeed := hSpeed * M.cos phi + radialVelo
  if effRadSpeed ≤ 1/10 then none
  else
    let lateralVelo := hSpeed * M.sin phi + tangentialVelo
    let vLaunch := speed * sinT
    if drag.enabled then
      match simulateToRange M effRadSpeed lateralVelo vLaunch range 1000 drag.k with
      | none => none
      | some sim =>
        some { f1 := sim.z - heightDiff, f2 := sim.y, effRadSpeed := effRadSpeed,
               shotTime := sim.t, vz := sim.vz }
    else
      let shotTime := range / effRadSpeed
      let height := vLaunch * shotTime - 1/2 * GRAVITY * shotTime * shotTime
      some { f1 := height - heightDiff, f2 := lateralVelo * shotTime,
             effRadSpeed := effRadSpeed, shotTime := shotTime,
             vz := vLaunch - GRAVITY * shotTime }

/-- Mutable state of one refinement attempt: current angles and the last
observed flight time and vertical velocity at target. -/
structure RefState where
  theta : ℚ
  phi : ℚ
  shotTime : ℚ
  lastVz : ℚ
deriving DecidableEq, Repr

/-- The inner 25-iteration Newton loop of refineShot, as recursion on the
remaining iteration count.  Early break returns the current state; the
degenerate-geometry branch (evalResiduals = none) shrinks theta, re-seeds
phi and continues. -/
def refineIter (M : JSMath)
    (speed tangentialVelo radialVelo range heightDiff clampMin clampMax phiMin phiMax : ℚ)
    (fixedTheta : Bool) (drag : DragConfig) : ℕ → RefState → RefState
  | 0, st => st
  | n + 1, st =>
    match evalResiduals M speed st.theta st.phi radialVelo tangentialVelo range heightDiff drag with
    | none =>
      let theta2 := if fixedTheta then st.theta else max (st.theta - 1/10) clampMin
      let phi2 := M.atan2 (-tangentialVelo) (speed * M.cos theta2)
      refineIter M speed tangentialVelo radialVelo range heightDiff clampMin clampMax phiMin phiMax
        fixedTheta drag n { st with theta := theta2, phi := phi2 }
    | some r0 =>
      let st1 : RefState :=
        { st with shotTime := r0.shotTime, lastVz := r0.vz }
      if |r0.f1| < 1/1000 ∧ |r0.f2| < 1/1000 then st1
      else if fixedTheta then
        match evalResiduals M speed st1.theta (st1.phi + 1/10000) radialVelo tangentialVelo range
            heightDiff drag with
        | none => st1
        | some rPhi =>
          let df2_dphi := (rPhi.f2 - r0.f2) / (1/10000)
          if |df2_dphi| < 1/10000 then st1
          else
            let phi2 := max phiMin (min phiMax (st1.phi - r0.f2 / df2_dphi))
            refineIter M speed tangentialVelo radialVelo range heightDiff clampMin clampMax phiMin
              phiMax fixedTheta drag n { st1 with phi := phi2 }
      else
        match evalResiduals M speed (st1.theta + 1/10000) st1.phi radialVelo tangentialVelo range
            heightDiff drag,
          evalResiduals M speed st1.theta (st1.phi + 1/10000) radialVelo tangentialVelo range
            heightDiff drag with
        | some rTheta, some rPhi =>
          let df1_dtheta := (rTheta.f1 - r0.f1) / (1/10000)
          let df1_dphi := (rPhi.f1 - r0.f1) / (1/10000)
          let df2_dtheta := (rTheta.f2 - r0.f2) / (1/10000)
          let df2_dphi := (rPhi.f2 - r0.f2) / (1/10000)
          let det := df1_dtheta * df2_dphi - df1_dphi * df2_dtheta
          if |det| < 1/10000000000 then st1
          else
            let invDet := 1 / det
            let dTheta := invDet * (df2_dphi * r0.f1 - df1_dphi * r0.f2)
            let dPhi := invDet * (-df2_dtheta * r0.f1 + df1_dtheta * r0.f2)
            let theta2 := max clampMin (min clampMax (st1.theta - dTheta))
            let phi2 := max phiMin (min phiMax (st1.phi - dPhi))
            refineIter M speed tangentialVelo radialVelo range heightDiff clampMin clampMax phiMin
              phiMax fixedTheta drag n { st1 with theta := theta2, phi := phi2 }
        | _, _ => st1

/-- refineShot: joint 2D Newton refinement of (theta, phi), or 1D on phi
when fixedTheta.  The attempt loop runs the 25-iteration inner loop up to
twice; after each attempt, a descending solution (lastVz < 0) or a fixed
theta breaks out, and otherwise theta is bumped 0.15 rad steeper (clamped)
and phi re-seeded before the loop continues or, after the second attempt,
exits — so the bumped values of that final pass are what is returned. -/
def refineShot (M : JSMath) (speed initialTheta tangentialVelo radialVelo range heightDiff
    clampMinDeg clampMaxDeg : ℚ) (fixedTheta : Bool) (drag : DragConfig) : RefineResult :=
  let clampMin := max (clampMinDeg * M.pi / 180) (1/20)
  let clampMax := min (clampMaxDeg * M.pi / 180) (M.pi / 2 - 1/20)
  let phiMin := -(M.pi / 2) + 1/20
  let phiMax := M.pi / 2 - 1/20
  let st0 : RefState :=
    { theta := initialTheta, phi := M.atan2 (-tangentialVelo) (speed * M.cos initialTheta),
      shotTime := 0, lastVz := 0 }
  let st1 := refineIter M speed tangentialVelo radialVelo range heightDiff clampMin clampMax phiMin
    phiMax fixedTheta drag 25 st0
  if st1.lastVz < 0 then { angle := st1.theta, shotTime := st1.shotTime, turretAdjRad := st1.phi }
  else if fixedTheta then
    { angle := st1.theta, shotTime := st1.shotTime, turretAdjRad := st1.phi }
  else
    let theta2 := min (st1.theta + 3/20) clampMax
    let st2 := refineIter M speed tangentialVelo radialVelo range heightDiff clampMin clampMax
      phiMin phiMax fixedTheta drag 25
      { theta := theta2, phi := M.atan2 (-tangentialVelo) (speed * M.cos theta2),
        shotTime := st1.shotTime, lastVz := st1.lastVz }
    if st2.lastVz < 0 then { angle := st2.theta, shotTime := st2.shotTime, turretAdjRad := st2.phi }
    else if fixedTheta then
      { angle := st2.theta, shotTime := st2.shotTime, turretAdjRad := st2.phi }
    else
      let theta3 := min (st2.theta + 3/20) clampMax
      { angle := theta3, shotTime := st2.shotTime,
        turretAdjRad := M.atan2 (-tangentialVelo) (speed * M.cos theta3) }

-- ── physics.ts: validateAndBuildResult ───────────────────────

/-- The shared tail of validateAndBuildResult: the four feasibility gates
(height-error tolerance, ceiling, descent threshold, lateral-drift cap)
followed by construction of the ShotResult, applied to the flight numbers
produced by either the drag or the vacuum branch. -/
def finishResult (M : JSMath) (speed angle turretAdj range : ℚ) (p : Params)
    (t heightError vyAtTarget apexHeight lateralDrift vxAtTarget : ℚ) : Option ShotResult :=
  let tolerance : ℚ := if p.angleMode = "fixed" then 3/20 else 1/20
  if tolerance < heightError then none
  else if p.ceilingHeight < apexHeight then none
  else if p.maxVyAtTarget < vyAtTarget then none
  else if 0 < p.maxLateralDrift ∧ p.maxLateralDrift < |lateralDrift| then none
  else
    some { shotSpeed := speed, hoodAngleDeg := angle * 180 / M.pi, flightTime := t,
           vyAtTarget := vyAtTarget,
           descentAngleDeg := M.atan2 (-vyAtTarget) vxAtTarget * 180 / M.pi,
           apexHeight := apexHeight, heightError := heightError,
           lateralDrift := lateralDrift, turretAdjRad := turretAdj, range := range }

/-- validateAndBuildResult: re-evaluate a (speed, angle, turretAdj)
candidate through the drag or vacuum model, apply the feasibility gates
and build the ShotResult, or return none. -/
def validateAndBuildResult (M : JSMath) (speed angle turretAdj range heightDiff : ℚ)
    (p : Params) (drag : DragConfig) : Option ShotResult :=
  let cosA := M.cos angle
  let sinA := M.sin angle
  let hSpeed := speed * cosA
  let effRadSpeed := hSpeed * M.cos turretAdj + p.radialVelo
  if effRadSpeed ≤ 1/10 then none
  else
    let lateralVelo := hSpeed * M.sin turretAdj + p.tangentialVelo
    let vLaunch := speed * sinA
    if drag.enabled then
      match simulateToRange M effRadSpeed lateralVelo vLaunch range p.shooterZ drag.k with
      | none => none
      | some sim =>
        finishResult M speed angle turretAdj range p sim.t |sim.z - heightDiff| sim.vz
          (p.shooterZ + sim.apexZ) sim.y sim.vx
    else
      let t := range / effRadSpeed
      let h := vLaunch * t - 1/2 * GRAVITY * t * t
      finishResult M speed angle turretAdj range p t |h - heightDiff| (vLaunch - GRAVITY * t)
        (p.shooterZ + vLaunch ^ 2 / (2 * GRAVITY)) (lateralVelo * t) effRadSpeed

-- ── physics.ts: evaluateShot and friends ─────────────────────

/-- trySpeedWithNewton: Newton refinement at a given speed followed by
validation.  In fixed-angle mode the initial theta is the fixed angle in
radians and refinement holds it constant. -/
def trySpeedWithNewton (M : JSMath) (speed seedAngle range heightDiff : ℚ) (p : Params)
    (drag : DragConfig) : Option ShotResult :=
  let aMin := if p.angleMode = "fixed" then p.fixedAngle else p.minAngle
  let aMax := if p.angleMode = "fixed" then p.fixedAngle else p.maxAngle
  let isFixedAngle := p.angleMode = "fixed"
  let ref := refineShot M speed (if isFixedAngle then aMin * M.pi / 180 else seedAngle)
    p.tangentialVelo p.radialVelo range heightDiff aMin aMax (decide isFixedAngle) drag
  validateAndBuildResult M speed ref.angle ref.turretAdjRad range heightDiff p drag

/-- The distance from field position (fx, fy) to the target, as computed
at the top of evaluateShot and evaluateShotWithHint. -/
def shotRange (M : JSMath) (fx fy : ℚ) (p : Params) : ℚ :=
  let dx := p.targetX - fx
  let dy := p.targetY - fy
  M.sqrt (dx * dx + dy * dy)

/-- JavaScript Math.round (round half up): ⌊q + 1/2⌋. -/
def jsRound (q : ℚ) : ℤ := ⌊q + 1/2⌋

/-- The (speed, angle) seed computed by the sweep stage of evaluateShot:
speed bounds and step count from the active modes, then the vacuum
sweep.  This stage never reads the drag flag. -/
def sweepSeed (M : JSMath) (fx fy : ℚ) (p : Params) : SweepResult :=
  let range := shotRange M fx fy p
  let heightDiff := p.targetZ - p.shooterZ
  let sMin := if p.speedMode = "fixed" then p.fixedSpeed else p.minSpeed
  let sMax := if p.speedMode = "fixed" then p.fixedSpeed else p.maxSpeed
  let aMin := if p.angleMode = "fixed" then p.fixedAngle else p.minAngle
  let aMax := if p.angleMode = "fixed" then p.fixedAngle else p.maxAngle
  let speedStepSize : ℚ := if p.angleMode = "fixed" ∧ p.speedMode ≠ "fixed" then 1/20 else 1/10
  let actualSpeedSteps : ℕ :=
    if p.speedMode = "fixed" then 1
    else (max 2 (jsRound ((sMax - sMin) / speedStepSize) + 1)).toNat
  sweepSpeedAndAngle M sMin sMax actualSpeedSteps aMin aMax p.tangentialVelo p.radialVelo range
    heightDiff p.shooterZ p.ceilingHeight

/-- evaluateShot: full feasibility query for one field position — range
gate at 0.3 m, vacuum sweep for a seed, then Newton refinement and
validation. -/
def evaluateShot (M : JSMath) (fx fy : ℚ) (p : Params) : Option ShotResult :=
  let range := shotRange M fx fy p
  let heightDiff := p.targetZ - p.shooterZ
  if range < 3/10 then none
  else
    let drag := dragFromParams M p
    let sweep := sweepSeed M fx fy p
    trySpeedWithNewton M sweep.speed sweep.angle range heightDiff p drag

/-- The expanding ring of hint-speed retries in evaluateShotWithHint: for
each delta in turn, try hintSpeed − delta when it stays at or above the
minimum, then hintSpeed + delta when it stays at or below the maximum,
returning the first hit.  The source loop visits delta = 0.2, 0.4, 0.6,
0.8 exactly. -/
def hintRing (M : JSMath) (range heightDiff : ℚ) (p : Params) (drag : DragConfig)
    (sMin sMax hintSpeed hintAngleRad : ℚ) : List ℚ → Option ShotResult
  | [] => none
  | d :: ds =>
    let lo := hintSpeed - d
    let hi := hintSpeed + d
    match (if sMin ≤ lo then trySpeedWithNewton M lo hintAngleRad range heightDiff p drag
           else none) with
    | some r => some r
    | none =>
      match (if hi ≤ sMax then trySpeedWithNewton M hi hintAngleRad range heightDiff p drag
             else none) with
      | some r => some r
      | none => hintRing M range heightDiff p drag sMin sMax hintSpeed hintAngleRad ds

/-- evaluateShotWithHint: refinement-only evaluation seeded from a
neighbor's (speed, angle); tries the hint speed directly, then nearby
speeds in expanding rings; no sweep fallback. -/
def evaluateShotWithHint (M : JSMath) (fx fy : ℚ) (p : Params)
    (hintSpeed hintAngleRad : ℚ) : Option ShotResult :=
  let range := shotRange M fx fy p
  let heightDiff := p.targetZ - p.shooterZ
  if range < 3/10 then none
  else
    let drag := dragFromParams M p
    let sMin := if p.speedMode = "fixed" then p.fixedSpeed else p.minSpeed
    let sMax := if p.speedMode = "fixed" then p.fixedSpeed else p.maxSpeed
    match trySpeedWithNewton M hintSpeed hintAngleRad range heightDiff p drag with
    | some r => some r
    | none =>
      hintRing M range heightDiff p drag sMin sMax hintSpeed hintAngleRad [1/5, 2/5, 3/5, 4/5]

/-- The configuration value synthesized by evaluateShotAtRange:
Object.assign({}, params, {tangentialVelo, radialVelo}) builds a fresh
record carrying params's fields with the two velocities overridden. -/
def overrideVelo (p : Params) (tangentialVelo radialVelo : ℚ) : Params :=
  { p with tangentialVelo := tangentialVelo, radialVelo := radialVelo }

/-- evaluateShotAtRange: evaluate at a virtual field position at the given
distance from the target, with the velocities substituted into a new
configuration value. -/
def evaluateShotAtRange (M : JSMath) (range tangentialVelo radialVelo : ℚ)
    (p : Params) : Option ShotResult :=
  let fx := p.targetX + range
  let fy := p.targetY
  let modParams := overrideVelo p tangentialVelo radialVelo
  evaluateShot M fx fy modParams

/-- State-passing embedding of evaluateShotAtRange over the caller's
params binding: the source reads params only as an Object.assign source
(the assign target is a fresh object), so the binding's final value is
params itself, returned unchanged alongside the result. -/
def evaluateShotAtRangeTracked (M : JSMath) (range tangentialVelo radialVelo : ℚ)
    (p : Params) : Option ShotResult × Params :=
  let fx := p.targetX + range
  let fy := p.targetY
  let modParams := overrideVelo p tangentialVelo radialVelo
  (evaluateShot M fx fy modParams, p)

-- ── compute.ts: computeHeatmap ───────────────────────────────

/-- A heatmap cell: none = UNCOMPUTED (sentinel undefined), some none =
computed infeasible (null), some (some r) = Valid result. -/
abbrev Cell := Option (Option ShotResult)

/-- JS truthiness of a cell result as used by the scanner: only a Valid
cell counts. -/
def isValid : Cell → Bool
  | some (some _) => true
  | _ => false

/-- Read a grid cell (out-of-range reads yield the UNCOMPUTED default, as
the scanner only reads in bounds). -/
def getCell (g : List (List Cell)) (r c : ℕ) : Cell :=
  (g.getD r []).getD c none

/-- Write a grid cell (no-op out of range, as List.set is). -/
def setCell (g : List (List Cell)) (r c : ℕ) (v : Cell) : List (List Cell) :=
  g.set r ((g.getD r []).set c v)

/-- Number of Valid cells in a grid. -/
def countValid (g : List (List Cell)) : ℕ :=
  (g.map (fun row => row.countP isValid)).sum

/-- The HeatmapData record built by computeHeatmap: grid dimensions, the
tri-state grid, running min/max stats (initialized to ±Infinity, hence
WithTop / WithBot) and the valid-cell count. -/
structure HeatmapData where
  cols : ℕ
  rows : ℕ
  res : ℚ
  results : List (List Cell)
  minSpeed : WithTop ℚ
  maxSpeed : WithBot ℚ
  minAngle : WithTop ℚ
  maxAngle : WithBot ℚ
  validCount : ℕ
deriving DecidableEq, Repr

/-- accumStats: count a valid result and fold it into the running min/max
speed and angle. -/
def accumStats (d : HeatmapData) (result : ShotResult) : HeatmapData :=
  { d with
    validCount := d.validCount + 1,
    minSpeed := min d.minSpeed (result.shotSpeed : WithTop ℚ),
    maxSpeed := max d.maxSpeed (result.shotSpeed : WithBot ℚ),
    minAngle := min d.minAngle (result.hoodAngleDeg : WithTop ℚ),
    maxAngle := max d.maxAngle (result.hoodAngleDeg : WithBot ℚ) }

/-- The cell indices visited by the seed phase double loop
(r, c stepping by seedSpacing while below rows, cols): exactly the
multiples of the spacing, in loop order. -/
def seedPositions (rows cols spacing : ℕ) : List (ℕ × ℕ) :=
  ((List.range rows).filter (fun r => r % spacing = 0)).flatMap
    (fun r => ((List.range cols).filter (fun c => c % spacing = 0)).map (fun c => (r, c)))

/-- All cell indices in row-major order, as visited by the straggler and
recovery phase double loops. -/
def allPositions (rows cols : ℕ) : List (ℕ × ℕ) :=
  (List.range rows).flatMap (fun r => (List.range cols).map (fun c => (r, c)))

/-- Seed-phase body for one cell: full evaluateShot at the cell center,
store the outcome, and on success count it and enqueue the cell. -/
def writeEval (M : JSMath) (p : Params) (res : ℚ)
    (st : HeatmapData × List (ℕ × ℕ)) (rc : ℕ × ℕ) : HeatmapData × List (ℕ × ℕ) :=
  let fx := ((rc.2 : ℚ) + 1/2) * res
  let fy := ((rc.1 : ℚ) + 1/2) * res
  let result := evaluateShot M fx fy p
  let d := { st.1 with results := setCell st.1.results rc.1 rc.2 (some result) }
  match result with
  | some r => (accumStats d r, st.2 ++ [rc])
  | none => (d, st.2)

/-- The four 4-connected neighbor offsets, in the scanner's DR/DC order:
up, down, left, right. -/
def dirList : List (ℤ × ℤ) := [(-1, 0), (1, 0), (0, -1), (0, 1)]

/-- Propagation-phase body for one neighbor of a dequeued valid cell:
bounds check, skip unless still uncomputed, hinted evaluation from the
parent's (speed, angle in radians), store, and on success count and
enqueue. -/
def bfsNeighbor (M : JSMath) (p : Params) (res : ℚ) (rows cols : ℕ) (parent : ShotResult)
    (pr pc : ℕ) (st : HeatmapData × List (ℕ × ℕ)) (dir : ℤ × ℤ) : HeatmapData × List (ℕ × ℕ) :=
  let nrI : ℤ := (pr : ℤ) + dir.1
  let ncI : ℤ := (pc : ℤ) + dir.2
  if 0 ≤ nrI ∧ nrI < (rows : ℤ) ∧ 0 ≤ ncI ∧ ncI < (cols : ℤ) then
    let nr := nrI.toNat
    let nc := ncI.toNat
    if getCell st.1.results nr nc ≠ none then st
    else
      let fx := ((nc : ℚ) + 1/2) * res
      let fy := ((nr : ℚ) + 1/2) * res
      let result := evaluateShotWithHint M fx fy p parent.shotSpeed
        (parent.hoodAngleDeg * M.pi / 180)
      let d := { st.1 with results := setCell st.1.results nr nc (some result) }
      match result with
      | some r => (accumStats d r, st.2 ++ [(nr, nc)])
      | none => (d, st.2)
  else st

/-- The BFS propagation loop over the queue, as recursion on an iteration
budget of rows·cols, which bounds the queue length: every enqueued cell
was freshly written from UNCOMPUTED state, so no cell is ever enqueued
twice.  The dequeued cell is always valid in the source (only valid cells
are enqueued); the unreachable non-valid case skips. -/
def bfsLoop (M : JSMath) (p : Params) (res : ℚ) (rows cols : ℕ) :
    ℕ → HeatmapData → List (ℕ × ℕ) → HeatmapData
  | 0, d, _ => d
  | _ + 1, d, [] => d
  | n + 1, d, (pr, pc) :: rest =>
    match getCell d.results pr pc with
    | some (some parent) =>
      let st := dirList.foldl (bfsNeighbor M p res rows cols parent pr pc) (d, rest)
      bfsLoop M p res rows cols n st.1 st.2
    | _ => bfsLoop M p res rows cols n d rest

/-- Straggler-phase body for one cell: full evaluateShot for cells the
propagation never reached. -/
def sweepStraggler (M : JSMath) (p : Params) (res : ℚ) (d : HeatmapData) (rc : ℕ × ℕ) :
    HeatmapData :=
  if getCell d.results rc.1 rc.2 ≠ none then d
  else
    let fx := ((rc.2 : ℚ) + 1/2) * res
    let fy := ((rc.1 : ℚ) + 1/2) * res
    let result := evaluateShot M fx fy p
    let d2 := { d with results := setCell d.results rc.1 rc.2 (some result) }
    match result with
    | some r => accumStats d2 r
    | none => d2

/-- First valid 4-connected neighbor of (r, c) in DR/DC order, as the
recovery phase's hint search (a null or uncomputed neighbor is falsy and
skipped). -/
def firstValidNeighbor (g : List (List Cell)) (rows cols : ℕ) (r c : ℕ) :
    List (ℤ × ℤ) → Option ShotResult
  | [] => none
  | dir :: ds =>
    let nrI : ℤ := (r : ℤ) + dir.1
    let ncI : ℤ := (c : ℤ) + dir.2
    if 0 ≤ nrI ∧ nrI < (rows : ℤ) ∧ 0 ≤ ncI ∧ ncI < (cols : ℤ) then
      match getCell g nrI.toNat ncI.toNat with
      | some (some h) => some h
      | _ => firstValidNeighbor g rows cols r c ds
    else firstValidNeighbor g rows cols r c ds

/-- Recovery-phase body for one cell: only null cells with a valid
neighbor get one hinted retry; the cell is overwritten (and counted) only
on success. -/
def recoverCell (M : JSMath) (p : Params) (res : ℚ) (rows cols : ℕ)
    (d : HeatmapData) (rc : ℕ × ℕ) : HeatmapData :=
  if getCell d.results rc.1 rc.2 ≠ some none then d
  else
    match firstValidNeighbor d.results rows cols rc.1 rc.2 dirList with
    | none => d
    | some hint =>
      let fx := ((rc.2 : ℚ) + 1/2) * res
      let fy := ((rc.1 : ℚ) + 1/2) * res
      match evaluateShotWithHint M fx fy p hint.shotSpeed (hint.hoodAngleDeg * M.pi / 180) with
      | some r =>
        accumStats { d with results := setCell d.results rc.1 rc.2 (some (some r)) } r
      | none => d

/-- computeHeatmap: the four-phase seed-and-propagate field scan — seed
grid, BFS propagation with hints, straggler sweep, neighbor recovery. -/
def computeHeatmap (M : JSMath) (p : Params) : HeatmapData :=
  let res := p.gridRes
  let displayLength := min FIELD_LENGTH (p.targetX + DISPLAY_BUFFER)
  let cols := (⌈displayLength / res⌉).toNat
  let rows := (⌈FIELD_WIDTH / res⌉).toNat
  let d0 : HeatmapData :=
    { cols := cols, rows := rows, res := res,
      results := List.replicate rows (List.replicate cols (none : Cell)),
      minSpeed := ⊤, maxSpeed := ⊥, minAngle := ⊤, maxAngle := ⊥, validCount := 0 }
  let seedSpacing : ℕ := (min 4 (max 1 ⌊(3/4 : ℚ) / res⌋)).toNat
  let st1 := (seedPositions rows cols seedSpacing).foldl (writeEval M p res) (d0, [])
  let d2 := bfsLoop M p res rows cols (rows * cols) st1.1 st1.2
  let d3 := (allPositions rows cols).foldl (sweepStraggler M p res) d2
  (allPositions rows cols).foldl (recoverCell M p res rows cols) d3

-- ── Gate facts about finishResult / validateAndBuildResult ───

/-- The four §4.4 feasibility gates on a result with respect to a
configuration: height-error tolerance (0.15 when angle is fixed, 0.05
otherwise), ceiling, descent threshold, and the lateral-drift cap when
positive. -/
def ShotGates (p : Params) (r : ShotResult) : Prop :=
  r.heightError ≤ (if p.angleMode = "fixed" then (3/20 : ℚ) else 1/20) ∧
  r.apexHeight ≤ p.ceilingHeight ∧
  r.vyAtTarget ≤ p.maxVyAtTarget ∧
  (0 < p.maxLateralDrift → |r.lateralDrift| ≤ p.maxLateralDrift)

/-- Whatever flight numbers reach the shared gate tail, a successful
finishResult stores exactly the checked values, and the checks passed. -/
theorem finishResult_eq_some (M : JSMath) (speed angle turretAdj range : ℚ) (p : Params)
    (t heightError vyAtTarget apexHeight lateralDrift vxAtTarget : ℚ) (r : ShotResult)
    (h : finishResult M speed angle turretAdj range p t heightError vyAtTarget apexHeight
      lateralDrift vxAtTarget = some r) :
    r = { shotSpeed := speed, hoodAngleDeg := angle * 180 / M.pi, flightTime := t,
          vyAtTarget := vyAtTarget,
          descentAngleDeg := M.atan2 (-vyAtTarget) vxAtTarget * 180 / M.pi,
          apexHeight := apexHeight, heightError := heightError,
          lateralDrift := lateralDrift, turretAdjRad := turretAdj, range := range } ∧
    heightError ≤ (if p.angleMode = "fixed" then (3/20 : ℚ) else 1/20) ∧
    apexHeight ≤ p.ceilingHeight ∧ vyAtTarget ≤ p.maxVyAtTarget ∧
    (0 < p.maxLateralDrift → |lateralDrift| ≤ p.maxLateralDrift) := by
  simp only [finishResult] at h
  by_cases hg1 : (if p.angleMode = "fixed" then (3/20 : ℚ) else 1/20) < heightError
  · rw [if_pos hg1] at h
    exact absurd h (fun hx => Option.noConfusion hx)
  rw [if_neg hg1] at h
  by_cases hg2 : p.ceilingHeight < apexHeight
  · rw [if_pos hg2] at h
    exact absurd h (fun hx => Option.noConfusion hx)
  rw [if_neg hg2] at h
  by_cases hg3 : p.maxVyAtTarget < vyAtTarget
  · rw [if_pos hg3] at h
    exact absurd h (fun hx => Option.noConfusion hx)
  rw [if_neg hg3] at h
  by_cases hg4 : 0 < p.maxLateralDrift ∧ p.maxLateralDrift < |lateralDrift|
  · rw [if_pos hg4] at h
    exact absurd h (fun hx => Option.noConfusion hx)
  rw [if_neg hg4] at h
  refine ⟨(Option.some_inj.mp h).symm, not_lt.mp hg1, not_lt.mp hg2, not_lt.mp hg3, ?_⟩
  intro hpos
  exact not_lt.mp (fun hlt => hg4 ⟨hpos, hlt⟩)

/-- A successful validateAndBuildResult satisfies all four gates and
stores the candidate speed as shotSpeed. -/
theorem validate_gates (M : JSMath) (speed angle turretAdj range heightDiff : ℚ)
    (p : Params) (drag : DragConfig) (r : ShotResult)
    (h : validateAndBuildResult M speed angle turretAdj range heightDiff p drag = some r) :
    ShotGates p r ∧ r.shotSpeed = speed := by
  simp only [validateAndBuildResult] at h
  by_cases h1 : speed * M.cos angle * M.cos turretAdj + p.radialVelo ≤ 1/10
  · rw [if_pos h1] at h
    exact absurd h (fun hx => Option.noConfusion hx)
  rw [if_neg h1] at h
  by_cases h2 : drag.enabled = true
  · rw [if_pos h2] at h
    cases hs : simulateToRange M (speed * M.cos angle * M.cos turretAdj + p.radialVelo)
        (speed * M.cos angle * M.sin turretAdj + p.tangentialVelo) (speed * M.sin angle)
        range p.shooterZ drag.k with
    | none =>
      rw [hs] at h
      exact absurd h (fun hx => Option.noConfusion hx)
    | some sim =>
      rw [hs] at h
      obtain ⟨hr, hg1, hg2, hg3, hg4⟩ :=
        finishResult_eq_some M speed angle turretAdj range p _ _ _ _ _ _ r h
      subst hr
      exact ⟨⟨hg1, hg2, hg3, hg4⟩, rfl⟩
  · rw [if_neg h2] at h
    obtain ⟨hr, hg1, hg2, hg3, hg4⟩ :=
      finishResult_eq_some M speed angle turretAdj range p _ _ _ _ _ _ r h
    subst hr
    exact ⟨⟨hg1, hg2, hg3, hg4⟩, rfl⟩

-- ── Plumbing: every entry point goes through the validator ───

/-- A successful trySpeedWithNewton is a successful validateAndBuildResult
at the same speed. -/
theorem trySpeedWithNewton_some (M : JSMath) (speed seedAngle range heightDiff : ℚ)
    (p : Params) (drag : DragConfig) (r : ShotResult)
    (h : trySpeedWithNewton M speed seedAngle range heightDiff p drag = some r) :
    ∃ angle turretAdj,
      validateAndBuildResult M speed angle turretAdj range heightDiff p drag = some r := by
  simp only [trySpeedWithNewton] at h
  exact ⟨_, _, h⟩

/-- A successful evaluateShot is a successful validateAndBuildResult at
the computed range and height difference. -/
theorem evaluateShot_some (M : JSMath) (fx fy : ℚ) (p : Params) (r : ShotResult)
    (h : evaluateShot M fx fy p = some r) :
    ∃ speed angle turretAdj,
      validateAndBuildResult M speed angle turretAdj (shotRange M fx fy p)
        (p.targetZ - p.shooterZ) p (dragFromParams M p) = some r := by
  simp only [evaluateShot] at h
  by_cases h1 : shotRange M fx fy p < 3/10
  · rw [if_pos h1] at h
    exact absurd h (fun hx => Option.noConfusion hx)
  · rw [if_neg h1] at h
    obtain ⟨a, ta, hv⟩ := trySpeedWithNewton_some M _ _ _ _ p _ r h
    exact ⟨_, a, ta, hv⟩

/-- A successful hintRing pass is a successful trySpeedWithNewton at one
of the ring speeds. -/
theorem hintRing_some (M : JSMath) (range heightDiff : ℚ) (p : Params) (drag : DragConfig)
    (sMin sMax hintSpeed hintAngleRad : ℚ) (ds : List ℚ) (r : ShotResult)
    (h : hintRing M range heightDiff p drag sMin sMax hintSpeed hintAngleRad ds = some r) :
    ∃ s, trySpeedWithNewton M s hintAngleRad range heightDiff p drag = some r := by
  induction ds with
  | nil => exact absurd h (fun hx => Option.noConfusion hx)
  | cons d ds ih =>
    rw [hintRing] at h
    cases hlo : (if sMin ≤ hintSpeed - d then
        trySpeedWithNewton M (hintSpeed - d) hintAngleRad range heightDiff p drag else none) with
    | some rlo =>
      rw [hlo] at h
      simp only [] at h
      have h1 : sMin ≤ hintSpeed - d := by
        by_contra hc
        rw [if_neg hc] at hlo
        exact Option.noConfusion hlo
      rw [if_pos h1] at hlo
      exact ⟨hintSpeed - d, hlo.trans h⟩
    | none =>
      rw [hlo] at h
      simp only [] at h
      cases hhi : (if hintSpeed + d ≤ sMax then
          trySpeedWithNewton M (hintSpeed + d) hintAngleRad range heightDiff p drag else none) with
      | some rhi =>
        rw [hhi] at h
        simp only [] at h
        have h2 : hintSpeed + d ≤ sMax := by
          by_contra hc
          rw [if_neg hc] at hhi
          exact Option.noConfusion hhi
        rw [if_pos h2] at hhi
        exact ⟨hintSpeed + d, hhi.trans h⟩
      | none =>
        rw [hhi] at h
        simp only [] at h
        exact ih h

/-- A successful evaluateShotWithHint is a successful
validateAndBuildResult at the computed range and height difference. -/
theorem evaluateShotWithHint_some (M : JSMath) (fx fy : ℚ) (p : Params)
    (hintSpeed hintAngleRad : ℚ) (r : ShotResult)
    (h : evaluateShotWithHint M fx fy p hintSpeed hintAngleRad = some r) :
    ∃ speed angle turretAdj,
      validateAndBuildResult M speed angle turretAdj (shotRange M fx fy p)
        (p.targetZ - p.shooterZ) p (dragFromParams M p) = some r := by
  simp only [evaluateShotWithHint] at h
  by_cases h1 : shotRange M fx fy p < 3/10
  · rw [if_pos h1] at h
    exact absurd h (fun hx => Option.noConfusion hx)
  rw [if_neg h1] at h
  cases hd : trySpeedWithNewton M hintSpeed hintAngleRad (shotRange M fx fy p)
      (p.targetZ - p.shooterZ) p (dragFromParams M p) with
  | some rd =>
    rw [hd] at h
    simp only [] at h
    obtain ⟨a, ta, hv⟩ := trySpeedWithNewton_some M _ _ _ _ p _ rd hd
    exact ⟨hintSpeed, a, ta, by rw [hv, h]⟩
  | none =>
    rw [hd] at h
    simp only [] at h
    obtain ⟨s, hs⟩ := hintRing_some M _ _ p _ _ _ _ _ _ r h
    obtain ⟨a, ta, hv⟩ := trySpeedWithNewton_some M _ _ _ _ p _ r hs
    exact ⟨s, a, ta, hv⟩

/-- With drag disabled, a successful validateAndBuildResult's stored
speed, hood angle, and flight time reproduce the required height through
the closed-form vacuum formula, within the active tolerance (provided the
abstracted π is nonzero, so the degree conversion round-trips). -/
theorem validate_vacuum_heightError (M : JSMath) (speed angle turretAdj range heightDiff : ℚ)
    (p : Params) (drag : DragConfig) (r : ShotResult)
    (hdrag : drag.enabled = false) (hpi : M.pi ≠ 0)
    (h : validateAndBuildResult M speed angle turretAdj range heightDiff p drag = some r) :
    |r.shotSpeed * M.sin (r.hoodAngleDeg * M.pi / 180) * r.flightTime
      - 1/2 * GRAVITY * r.flightTime ^ 2 - heightDiff|
      ≤ (if p.angleMode = "fixed" then (3/20 : ℚ) else 1/20) := by
  simp only [validateAndBuildResult] at h
  by_cases h1 : speed * M.cos angle * M.cos turretAdj + p.radialVelo ≤ 1/10
  · rw [if_pos h1] at h
    exact absurd h (fun hx => Option.noConfusion hx)
  rw [if_neg h1, hdrag] at h
  simp only [Bool.false_eq_true, if_false] at h
  obtain ⟨hr, hg1, hg2, hg3, hg4⟩ :=
    finishResult_eq_some M speed angle turretAdj range p _ _ _ _ _ _ r h
  subst hr
  have hang : angle * 180 / M.pi * M.pi / 180 = angle := by
    field_simp
  simp only [hang]
  have heq : speed * M.sin angle * (range / (speed * M.cos angle * M.cos turretAdj + p.radialVelo))
      - 1/2 * GRAVITY * (range / (speed * M.cos angle * M.cos turretAdj + p.radialVelo)) ^ 2
      - heightDiff
      = speed * M.sin angle * (range / (speed * M.cos angle * M.cos turretAdj + p.radialVelo))
      - 1/2 * GRAVITY * (range / (speed * M.cos angle * M.cos turretAdj + p.radialVelo))
        * (range / (speed * M.cos angle * M.cos turretAdj + p.radialVelo)) - heightDiff := by
    ring
  rw [heq]
  exact hg1

-- ── Claim theorems (part 1) ──────────────────────────────────

/-- Claim C1: every ShotResult returned by evaluateShot,
evaluateShotWithHint, or evaluateShotAtRange satisfies all four
feasibility gates of §4.4: height error within the active tolerance
(0.15 in fixed-angle mode, else 0.05), apex height at most the ceiling,
vertical velocity at target at most the descent threshold, and lateral
drift within the cap whenever the cap is positive. -/
theorem C1_results_satisfy_gates (M : JSMath) (fx fy hintSpeed hintAngleRad rg tv rv : ℚ)
    (p : Params) (r : ShotResult)
    (h : evaluateShot M fx fy p = some r ∨
      evaluateShotWithHint M fx fy p hintSpeed hintAngleRad = some r ∨
      evaluateShotAtRange M rg tv rv p = some r) :
    ShotGates p r := by
  rcases h with h | h | h
  · obtain ⟨s, a, ta, hv⟩ := evaluateShot_some M fx fy p r h
    exact (validate_gates M s a ta _ _ p _ r hv).1
  · obtain ⟨s, a, ta, hv⟩ := evaluateShotWithHint_some M fx fy p hintSpeed hintAngleRad r h
    exact (validate_gates M s a ta _ _ p _ r hv).1
  · obtain ⟨s, a, ta, hv⟩ :=
      evaluateShot_some M (p.targetX + rg) p.targetY (overrideVelo p tv rv) r h
    exact (validate_gates M s a ta _ _ (overrideVelo p tv rv) _ r hv).1

/-- Claim C3: evaluateShotAtRange is exactly evaluateShot at the
synthetic position (targetX + range, targetY) under the configuration
with the velocities overridden, and the distance computed inside that
call is the requested range (for nonnegative range, given that the
abstracted square root inverts squaring there). -/
theorem C3_atRange_equals_synthetic (M : JSMath) (rg tv rv : ℚ) (p : Params)
    (h0 : 0 ≤ rg) (hsq : M.sqrt (rg * rg) = rg) :
    evaluateShotAtRange M rg tv rv p
      = evaluateShot M (p.targetX + rg) p.targetY (overrideVelo p tv rv) ∧
    shotRange M (p.targetX + rg) p.targetY (overrideVelo p tv rv) = rg := by
  refine ⟨rfl, ?_⟩
  simp only [shotRange, overrideVelo]
  rw [show (p.targetX - (p.targetX + rg)) * (p.targetX - (p.targetX + rg))
      + (p.targetY - p.targetY) * (p.targetY - p.targetY) = rg * rg from by ring]
  exact hsq

/-- Claim C6: with drag disabled, substituting a feasible result's stored
shotSpeed, hoodAngleDeg (converted back to radians), and flightTime into
the closed-form vacuum height v·sin(θ)·t − ½·g·t² reproduces the required
height difference targetZ − shooterZ within the active tolerance (0.15 in
fixed-angle mode, else 0.05); π must be nonzero for the degree round
trip. -/
theorem C6_vacuum_height_formula (M : JSMath) (fx fy hintSpeed hintAngleRad rg tv rv : ℚ)
    (p : Params) (r : ShotResult) (hdrag : p.dragEnabled = false) (hpi : M.pi ≠ 0)
    (h : evaluateShot M fx fy p = some r ∨
      evaluateShotWithHint M fx fy p hintSpeed hintAngleRad = some r ∨
      evaluateShotAtRange M rg tv rv p = some r) :
    |r.shotSpeed * M.sin (r.hoodAngleDeg * M.pi / 180) * r.flightTime
      - 1/2 * GRAVITY * r.flightTime ^ 2 - (p.targetZ - p.shooterZ)|
      ≤ (if p.angleMode = "fixed" then (3/20 : ℚ) else 1/20) := by
  have hde : (dragFromParams M p).enabled = false := hdrag
  rcases h with h | h | h
  · obtain ⟨s, a, ta, hv⟩ := evaluateShot_some M fx fy p r h
    exact validate_vacuum_heightError M s a ta _ _ p _ r hde hpi hv
  · obtain ⟨s, a, ta, hv⟩ := evaluateShotWithHint_some M fx fy p hintSpeed hintAngleRad r h
    exact validate_vacuum_heightError M s a ta _ _ p _ r hde hpi hv
  · obtain ⟨s, a, ta, hv⟩ :=
      evaluateShot_some M (p.targetX + rg) p.targetY (overrideVelo p tv rv) r h
    exact validate_vacuum_heightError M s a ta _ _ (overrideVelo p tv rv) _ r hde hpi hv

/-- Claim C7: the (speed, angle) seed computed by the coarse sweep stage
inside evaluateShot is identical for configurations that differ only in
the dragEnabled flag — the sweep stage (sweepSpeedAndAngle, which takes
no drag argument at all) always evaluates the vacuum model. -/
theorem C7_sweep_ignores_drag (M : JSMath) (fx fy : ℚ) (p : Params) (b1 b2 : Bool) :
    sweepSeed M fx fy { p with dragEnabled := b1 }
      = sweepSeed M fx fy { p with dragEnabled := b2 } := rfl

/-- Claim C8: a position whose computed distance to the target is below
0.3 m makes both evaluateShot and evaluateShotWithHint return none,
whatever the rest of the configuration. -/
theorem C8_too_close_returns_none (M : JSMath) (fx fy hintSpeed hintAngleRad : ℚ) (p : Params)
    (h : shotRange M fx fy p < 3/10) :
    evaluateShot M fx fy p = none ∧
    evaluateShotWithHint M fx fy p hintSpeed hintAngleRad = none := by
  constructor
  · simp only [evaluateShot]
    rw [if_pos h]
  · simp only [evaluateShotWithHint]
    rw [if_pos h]

/-- Claim C9: evaluateShotAtRange never mutates its input configuration:
in the state-passing embedding the caller's params value is returned
unchanged, the velocity overrides live only in the freshly constructed
configuration, and that new configuration agrees with the original on
every other field. -/
theorem C9_atRange_no_mutation (M : JSMath) (rg tv rv : ℚ) (p : Params) :
    (evaluateShotAtRangeTracked M rg tv rv p).2 = p ∧
    (evaluateShotAtRangeTracked M rg tv rv p).1 = evaluateShotAtRange M rg tv rv p ∧
    (overrideVelo p tv rv).tangentialVelo = tv ∧
    (overrideVelo p tv rv).radialVelo = rv ∧
    (overrideVelo p tv rv).speedMode = p.speedMode ∧
    (overrideVelo p tv rv).minSpeed = p.minSpeed ∧
    (overrideVelo p tv rv).maxSpeed = p.maxSpeed ∧
    (overrideVelo p tv rv).fixedSpeed = p.fixedSpeed ∧
    (overrideVelo p tv rv).angleMode = p.angleMode ∧
    (overrideVelo p tv rv).minAngle = p.minAngle ∧
    (overrideVelo p tv rv).maxAngle = p.maxAngle ∧
    (overrideVelo p tv rv).fixedAngle = p.fixedAngle ∧
    (overrideVelo p tv rv).gridRes = p.gridRes ∧
    (overrideVelo p tv rv).shooterZ = p.shooterZ ∧
    (overrideVelo p tv rv).ceilingHeight = p.ceilingHeight ∧
    (overrideVelo p tv rv).targetX = p.targetX ∧
    (overrideVelo p tv rv).targetY = p.targetY ∧
    (overrideVelo p tv rv).targetZ = p.targetZ ∧
    (overrideVelo p tv rv).maxVyAtTarget = p.maxVyAtTarget ∧
    (overrideVelo p tv rv).maxLateralDrift = p.maxLateralDrift ∧
    (overrideVelo p tv rv).dragEnabled = p.dragEnabled :=
  ⟨rfl, rfl, rfl, rfl, rfl, rfl, rfl, rfl, rfl, rfl, rfl, rfl, rfl, rfl, rfl, rfl, rfl, rfl,
    rfl, rfl, rfl⟩

-- ── Concrete witness interpretation and configuration ────────

/-- A concrete interpretation of the math library for witness
evaluation. -/
def Mw : JSMath :=
  { cos := fun _ => 1, sin := fun _ => 0, atan2 := fun _ _ => 0, sqrt := fun q => q, pi := 180 }

/-- A concrete configuration (fixed speed 8, fixed angle, vacuum) whose
single-cell heatmap is feasible under Mw. -/
def pw : Params :=
  { speedMode := "fixed", minSpeed := 6, maxSpeed := 12, fixedSpeed := 8,
    angleMode := "fixed", minAngle := 20, maxAngle := 70, fixedAngle := 1,
    tangentialVelo := 0, radialVelo := 0, gridRes := 9, shooterZ := 49/40,
    ceilingHeight := 4, targetX := 13/2, targetY := 9/2, targetZ := 0,
    maxVyAtTarget := -1, maxLateralDrift := 0, dragEnabled := false }

/-- The result evaluateShot produces at (9/2, 9/2) under Mw and pw. -/
def rw0 : ShotResult :=
  { shotSpeed := 8, hoodAngleDeg := 1, flightTime := 1/2, vyAtTarget := -49/10,
    descentAngleDeg := 0, apexHeight := 49/40, heightError := 0, lateralDrift := 0,
    turretAdjRad := 0, range := 4 }

theorem pwM1 : pw.angleMode = "fixed" := rfl

theorem pwM2 : pw.fixedAngle = 1 := rfl

theorem pwM3 : pw.tangentialVelo = 0 := rfl

theorem pwM4 : pw.radialVelo = 0 := rfl

theorem pwM5 : pw.targetZ = 0 := rfl

theorem pwM6 : pw.shooterZ = 49/40 := rfl

theorem pwM7 : pw.ceilingHeight = 4 := rfl

theorem pwM8 : pw.maxVyAtTarget = -1 := rfl

theorem pwM9 : pw.maxLateralDrift = 0 := rfl

/-- If the first residual evaluation already meets the convergence test,
one pass of the refine loop records the flight data and stops. -/
theorem refineIter_converged (M : JSMath)
    (speed tangentialVelo radialVelo range heightDiff clampMin clampMax phiMin phiMax : ℚ)
    (fixedTheta : Bool) (drag : DragConfig) (n : ℕ) (st : RefState) (r0 : ResidualEval)
    (h : evalResiduals M speed st.theta st.phi radialVelo tangentialVelo range heightDiff drag
      = some r0)
    (h1 : |r0.f1| < 1/1000) (h2 : |r0.f2| < 1/1000) :
    refineIter M speed tangentialVelo radialVelo range heightDiff clampMin clampMax phiMin phiMax
      fixedTheta drag (n + 1) st = { st with shotTime := r0.shotTime, lastVz := r0.vz } := by
  rw [refineIter, h]
  simp only [if_pos (And.intro h1 h2)]

/-- When the seeded residuals already meet the convergence test and show a
descending arrival, refineShot returns the seed angles with the observed
flight data after a single iteration. -/
theorem refineShot_converged (M : JSMath)
    (speed initialTheta tangentialVelo radialVelo range heightDiff clampMinDeg clampMaxDeg : ℚ)
    (fixedTheta : Bool) (drag : DragConfig) (r0 : ResidualEval)
    (h : evalResiduals M speed initialTheta
      (M.atan2 (-tangentialVelo) (speed * M.cos initialTheta)) radialVelo tangentialVelo range
      heightDiff drag = some r0)
    (h1 : |r0.f1| < 1/1000) (h2 : |r0.f2| < 1/1000) (h3 : r0.vz < 0) :
    refineShot M speed initialTheta tangentialVelo radialVelo range heightDiff clampMinDeg
      clampMaxDeg fixedTheta drag =
      { angle := initialTheta, shotTime := r0.shotTime,
        turretAdjRad := M.atan2 (-tangentialVelo) (speed * M.cos initialTheta) } := by
  rw [refineShot]
  rw [show (25 : ℕ) = 24 + 1 from rfl]
  rw [refineIter_converged M speed tangentialVelo radialVelo range heightDiff _ _ _ _ fixedTheta
    drag 24 _ r0 h h1 h2]
  simp only [if_pos h3]

/-- With drag disabled, validateAndBuildResult reduces to its closed-form
vacuum branch. -/
theorem validateAndBuildResult_vacuum (M : JSMath) (speed angle turretAdj range heightDiff : ℚ)
    (p : Params) (drag : DragConfig) (hd : drag.enabled = false) :
    validateAndBuildResult M speed angle turretAdj range heightDiff p drag =
      (if speed * M.cos angle * M.cos turretAdj + p.radialVelo ≤ 1/10 then none
       else
         let effRadSpeed := speed * M.cos angle * M.cos turretAdj + p.radialVelo
         let lateralVelo := speed * M.cos angle * M.sin turretAdj + p.tangentialVelo
         let vLaunch := speed * M.sin angle
         let t := range / effRadSpeed
         let h := vLaunch * t - 1/2 * GRAVITY * t * t
         finishResult M speed angle turretAdj range p t |h - heightDiff| (vLaunch - GRAVITY * t)
           (p.shooterZ + vLaunch ^ 2 / (2 * GRAVITY)) (lateralVelo * t) effRadSpeed) := by
  simp only [validateAndBuildResult, hd, Bool.false_eq_true, if_false]

-- ── Witness evaluation chain ─────────────────────────────────

/-- The sweep stage at the witness input selects the fixed speed and
fixed angle. -/
theorem wSweep : sweepSeed Mw (9/2) (9/2) pw
    = { speed := 8, angle := 1, error := ((0:ℚ) : WithTop ℚ) } := by
  norm_num [sweepSeed, sweepSpeedAndAngle, sweepCandidates, angleList, sweepBody, candPass,
    candApex, candEff, candDesc, candVy, candT, candErr, candViable, jsRound, shotRange,
    List.range_succ, List.range_zero, List.replicate, List.flatMap_cons, List.flatMap_nil,
    Function.comp, Mw, pw, GRAVITY]

/-- The first residual evaluation at the witness seed is already
converged. -/
theorem wRes : evalResiduals Mw 8 (Mw.pi / 180)
    (Mw.atan2 (-(0:ℚ)) (8 * Mw.cos (Mw.pi / 180))) 0 0 4 (-(49/40)) (dragFromParams Mw pw)
    = some { f1 := 0, f2 := 0, effRadSpeed := 8, shotTime := 1/2, vz := -49/10 } := by
  simp only [evalResiduals]
  split_ifs with h1 h2
  · exact absurd h1 (by norm_num [Mw])
  · exact absurd h2 (by decide)
  · norm_num [Mw, GRAVITY]

/-- The validator accepts the witness candidate and builds rw0. -/
theorem wValidate : validateAndBuildResult Mw 8 (Mw.pi / 180)
    (Mw.atan2 (-(0:ℚ)) (8 * Mw.cos (Mw.pi / 180))) 4 (-(49/40)) pw (dragFromParams Mw pw)
    = some rw0 := by
  rw [validateAndBuildResult_vacuum Mw 8 (Mw.pi / 180)
    (Mw.atan2 (-(0:ℚ)) (8 * Mw.cos (Mw.pi / 180))) 4 (-(49/40)) pw (dragFromParams Mw pw)
    (by decide)]
  simp only [finishResult, pwM1, pwM3, pwM4, pwM6, pwM7, pwM8, pwM9, eq_self_iff_true, if_true]
  split_ifs with h1 h2 h3 h4 h5
  · exact absurd h1 (by norm_num [Mw])
  · exact absurd h2 (by norm_num [Mw, GRAVITY])
  · exact absurd h3 (by norm_num [Mw, GRAVITY])
  · exact absurd h4 (by norm_num [Mw, GRAVITY])
  · exact absurd h5 (by norm_num [Mw, GRAVITY])
  · norm_num [Mw, rw0, GRAVITY]

/-- evaluateShot at the witness input returns rw0. -/
theorem wShot : evaluateShot Mw (9/2) (9/2) pw = some rw0 := by
  have h1 : shotRange Mw (9/2) (9/2) pw = 4 := by norm_num [shotRange, Mw, pw]
  rw [evaluateShot, h1, wSweep]
  simp only [trySpeedWithNewton, pwM1, pwM2, pwM3, pwM4, pwM5, pwM6]
  simp only [eq_self_iff_true, if_true, decide_True, mul_one, one_mul, neg_zero, zero_sub]
  rw [if_neg (by norm_num : ¬((4:ℚ) < 3/10))]
  rw [refineShot_converged Mw 8 (Mw.pi / 180) 0 0 4 (-(49/40)) 1 1 true (dragFromParams Mw pw)
    { f1 := 0, f2 := 0, effRadSpeed := 8, shotTime := 1/2, vz := -49/10 } wRes (by norm_num)
    (by norm_num) (by norm_num)]
  exact wValidate

-- ── Witnesses (part 1) ───────────────────────────────────────

/-- Witness for C1: the concrete feasible result rw0 satisfies the four
gates of pw. -/
theorem C1_results_satisfy_gates_w :
    evaluateShot Mw (9/2) (9/2) pw = some rw0 ∧ ShotGates pw rw0 :=
  ⟨wShot, C1_results_satisfy_gates Mw (9/2) (9/2) 0 0 0 0 0 pw rw0 (Or.inl wShot)⟩

/-- Witness for C3 at range 0 under the identity square root. -/
theorem C3_atRange_equals_synthetic_w :
    (0:ℚ) ≤ 0 ∧ Mw.sqrt (0 * 0) = 0 ∧
    (evaluateShotAtRange Mw 0 1 2 pw
        = evaluateShot Mw (pw.targetX + 0) pw.targetY (overrideVelo pw 1 2) ∧
      shotRange Mw (pw.targetX + 0) pw.targetY (overrideVelo pw 1 2) = 0) :=
  ⟨le_refl 0, by norm_num [Mw],
    C3_atRange_equals_synthetic Mw 0 1 2 pw (le_refl 0) (by norm_num [Mw])⟩

/-- Witness for C6: the height formula at rw0 lands within tolerance. -/
theorem C6_vacuum_height_formula_w :
    pw.dragEnabled = false ∧ Mw.pi ≠ 0 ∧
    |rw0.shotSpeed * Mw.sin (rw0.hoodAngleDeg * Mw.pi / 180) * rw0.flightTime
      - 1/2 * GRAVITY * rw0.flightTime ^ 2 - (pw.targetZ - pw.shooterZ)|
      ≤ (if pw.angleMode = "fixed" then (3/20 : ℚ) else 1/20) :=
  ⟨rfl, by norm_num [Mw],
    C6_vacuum_height_formula Mw (9/2) (9/2) 0 0 0 0 0 pw rw0 rfl (by norm_num [Mw])
      (Or.inl wShot)⟩

/-- A configuration placing the witness position 0.2 m from the target. -/
def pw8 : Params :=
  { speedMode := "fixed", minSpeed := 6, maxSpeed := 12, fixedSpeed := 8,
    angleMode := "fixed", minAngle := 20, maxAngle := 70, fixedAngle := 1,
    tangentialVelo := 0, radialVelo := 0, gridRes := 9, shooterZ := 49/40,
    ceilingHeight := 4, targetX := 47/10, targetY := 9/2, targetZ := 0,
    maxVyAtTarget := -1, maxLateralDrift := 0, dragEnabled := false }

/-- Witness for C8: 0.2 m from the target (distance below 0.3 under the
identity square root) yields none from both entry points. -/
theorem C8_too_close_returns_none_w :
    shotRange Mw (9/2) (9/2) pw8 < 3/10 ∧
    (evaluateShot Mw (9/2) (9/2) pw8 = none ∧
      evaluateShotWithHint Mw (9/2) (9/2) pw8 8 1 = none) :=
  ⟨by norm_num [shotRange, Mw, pw8],
    C8_too_close_returns_none Mw (9/2) (9/2) 8 1 pw8 (by norm_num [shotRange, Mw, pw8])⟩

-- ── C2: characterization of simulateToRange ──────────────────

/-- Unfolding one RK4 step off the iterate tower. -/
theorem simIter_succ (M : JSMath) (k : ℚ) (n : ℕ) (s : SimState) :
    simIter M k (n + 1) s = simStep M k (simIter M k n s) := by
  simp only [simIter, Function.iterate_succ_apply']

/-- The integration clock advances by exactly DT = 1/500 per step. -/
theorem simIter_t (M : JSMath) (k : ℚ) (n : ℕ) (s : SimState) :
    (simIter M k n s).t = s.t + n * (1/500) := by
  induction n with
  | zero => simp [simIter]
  | succ m ih =>
    rw [simIter_succ]
    show (simIter M k m s).t + 1/500 = s.t + (m + 1 : ℕ) * (1/500)
    rw [ih]
    push_cast
    ring

/-- The loop of simulateToRange agrees with the first-exit search over the
iterate tower, from any point of the budget. -/
theorem simLoop_spec (M : JSMath) (k range shooterZ vx0 vy0 vz0 : ℚ) :
    ∀ (count start : ℕ), start + count = 2500 →
    simLoop M k range shooterZ (count + 1) (simIter M k start (simInit vx0 vy0 vz0)) =
      match findExitFrom M k range shooterZ (simInit vx0 vy0 vz0) start count with
      | none => none
      | some i =>
        if (simIter M k (i + 1) (simInit vx0 vy0 vz0)).z < -shooterZ then none
        else some (interpState range (simIter M k i (simInit vx0 vy0 vz0))
          (simIter M k (i + 1) (simInit vx0 vy0 vz0))) := by
  intro count
  induction count with
  | zero =>
    intro start hs
    have hs' : start = 2500 := by omega
    subst hs'
    rw [simLoop, findExitFrom]
    have ht : (simIter M k 2500 (simInit vx0 vy0 vz0)).t = 5 := by
      rw [simIter_t]
      norm_num [simInit]
    rw [ht]
    norm_num
  | succ count ih =>
    intro start hs
    have hstart : (start : ℚ) < 2500 := by
      have : start < 2500 := by omega
      exact_mod_cast this
    have ht : (simIter M k start (simInit vx0 vy0 vz0)).t < 5 := by
      rw [simIter_t]
      simp only [simInit]
      linarith
    rw [show count + 1 + 1 = (count + 1) + 1 from rfl, simLoop, if_pos ht,
      ← simIter_succ M k start (simInit vx0 vy0 vz0)]
    rw [findExitFrom]
    by_cases hg : (simIter M k (start + 1) (simInit vx0 vy0 vz0)).z < -shooterZ
    · have hx : simExit range shooterZ (simIter M k (start + 1) (simInit vx0 vy0 vz0)) :=
        Or.inl hg
      rw [if_pos hg, if_pos hx]
      simp only [if_pos hg]
    · rw [if_neg hg]
      by_cases hr : range ≤ (simIter M k (start + 1) (simInit vx0 vy0 vz0)).x
      · have hx : simExit range shooterZ (simIter M k (start + 1) (simInit vx0 vy0 vz0)) :=
          Or.inr hr
        rw [if_pos hr, if_pos hx]
        simp only [if_neg hg]
      · have hx : ¬ simExit range shooterZ (simIter M k (start + 1) (simInit vx0 vy0 vz0)) := by
          intro hx
          rcases hx with hx | hx
          · exact hg hx
          · exact hr hx
        rw [if_neg hr, if_neg hx]
        exact ih (start + 1) (by omega)

/-- Claim C2: simulateToRange is a total function whose outcome is
characterized by the first exit event along the RK4 iterate tower within
the 5-second cap (2500 steps of 2 ms from t = 0): it returns none exactly
when the first exit is a ground drop (z below −shooterZ, checked before
the range test) or when no step within the cap brings x to the range; in
the remaining case — the first exit step crosses the range above ground —
it returns the state linearly interpolated within that step. -/
theorem C2_simulateToRange_characterization (M : JSMath) (vx0 vy0 vz0 range shooterZ k : ℚ) :
    simulateToRange M vx0 vy0 vz0 range shooterZ k =
      match simFirstExit M k range shooterZ vx0 vy0 vz0 with
      | none => none
      | some i =>
        if (simIter M k (i + 1) (simInit vx0 vy0 vz0)).z < -shooterZ then none
        else some (interpState range (simIter M k i (simInit vx0 vy0 vz0))
          (simIter M k (i + 1) (simInit vx0 vy0 vz0))) := by
  have h := simLoop_spec M k range shooterZ vx0 vy0 vz0 2500 0 rfl
  rw [show simIter M k 0 (simInit vx0 vy0 vz0) = simInit vx0 vy0 vz0 from rfl] at h
  exact h

-- ── C5: sweep selection policy ───────────────────────────────

/-- Splitting an existential over a list extended by one element. -/
theorem exists_mem_append_singleton {α : Type} (l : List α) (c : α) (p : α → Prop) :
    (∃ x ∈ l ++ [c], p x) ↔ (∃ x ∈ l, p x) ∨ p c := by
  constructor
  · rintro ⟨x, hx, hp⟩
    rcases List.mem_append.mp hx with hx | hx
    · exact Or.inl ⟨x, hx, hp⟩
    · rcases List.mem_singleton.mp hx with rfl
      exact Or.inr hp
  · rintro (⟨x, hx, hp⟩ | hp)
    · exact ⟨x, List.mem_append_left _ hx, hp⟩
    · exact ⟨c, List.mem_append_right _ (List.mem_singleton.mpr rfl), hp⟩

/-- Invariant of the sweep loop over the processed prefix of candidates:
the foundDescending flag tracks the existence of a passing descending
candidate; while no viable descending candidate has been processed the
recorded error is not below the threshold; and once one exists, the state
records a passing, descending, viable candidate of minimal arrival
vertical velocity among all such processed candidates. -/
def SweepInv (M : JSMath) (tangentialVelo radialVelo range heightDiff shooterZ ceilingHeight : ℚ)
    (l : List (ℚ × ℚ)) (st : SweepState) : Prop :=
  ((st.found = true) ↔ ∃ c ∈ l, candPass M tangentialVelo radialVelo shooterZ ceilingHeight c ∧
    candDesc M tangentialVelo radialVelo range c) ∧
  ((∃ c ∈ l, candPass M tangentialVelo radialVelo shooterZ ceilingHeight c ∧
      candDesc M tangentialVelo radialVelo range c) →
    ¬(∃ c ∈ l, candPass M tangentialVelo radialVelo shooterZ ceilingHeight c ∧
      candDesc M tangentialVelo radialVelo range c ∧
      candViable M tangentialVelo radialVelo range heightDiff c) →
    ¬(st.bestError < ((1/2 : ℚ) : WithTop ℚ))) ∧
  ((∃ c ∈ l, candPass M tangentialVelo radialVelo shooterZ ceilingHeight c ∧
      candDesc M tangentialVelo radialVelo range c ∧
      candViable M tangentialVelo radialVelo range heightDiff c) →
    ∃ c ∈ l, candPass M tangentialVelo radialVelo shooterZ ceilingHeight c ∧
      candDesc M tangentialVelo radialVelo range c ∧
      candViable M tangentialVelo radialVelo range heightDiff c ∧
      st.bestSpeed = c.1 ∧ st.bestAngle = c.2 ∧
      st.bestError = (candErr M tangentialVelo radialVelo range heightDiff c : WithTop ℚ) ∧
      st.bestVy = candVy M tangentialVelo radialVelo range c ∧
      ∀ c2 ∈ l, candPass M tangentialVelo radialVelo shooterZ ceilingHeight c2 →
        candDesc M tangentialVelo radialVelo range c2 →
        candViable M tangentialVelo radialVelo range heightDiff c2 →
        candVy M tangentialVelo radialVelo range c ≤ candVy M tangentialVelo radialVelo range c2)

/-- One pass of the sweep body preserves the loop invariant. -/
theorem sweepBody_inv (M : JSMath)
    (tangentialVelo radialVelo range heightDiff shooterZ ceilingHeight : ℚ)
    (l : List (ℚ × ℚ)) (st : SweepState) (c : ℚ × ℚ)
    (h : SweepInv M tangentialVelo radialVelo range heightDiff shooterZ ceilingHeight l st) :
    SweepInv M tangentialVelo radialVelo range heightDiff shooterZ ceilingHeight (l ++ [c])
      (sweepBody M tangentialVelo radialVelo range heightDiff shooterZ ceilingHeight st c) := by
  obtain ⟨h1, h2, h3⟩ := h
  have hmemc : c ∈ l ++ [c] := List.mem_append_right _ (List.mem_singleton.mpr rfl)
  by_cases hP : candPass M tangentialVelo radialVelo shooterZ ceilingHeight c
  · by_cases hD : candDesc M tangentialVelo radialVelo range c
    · -- passing, descending candidate
      simp only [sweepBody]
      rw [if_pos hP, if_pos hD]
      by_cases hrep : st.found = false ∨
          (candViable M tangentialVelo radialVelo range heightDiff c ∧
            ¬(st.bestError < ((1/2 : ℚ) : WithTop ℚ))) ∨
          (candViable M tangentialVelo radialVelo range heightDiff c ∧
            st.bestError < ((1/2 : ℚ) : WithTop ℚ) ∧
            candVy M tangentialVelo radialVelo range c < st.bestVy) ∨
          (¬candViable M tangentialVelo radialVelo range heightDiff c ∧
            ¬(st.bestError < ((1/2 : ℚ) : WithTop ℚ)) ∧
            ((candErr M tangentialVelo radialVelo range heightDiff c : WithTop ℚ) <
              st.bestError))
      · rw [if_pos hrep]
        refine ⟨iff_of_true rfl ⟨c, hmemc, hP, hD⟩, ?_, ?_⟩
        · intro _ hnV hlt
          exact hnV ⟨c, hmemc, hP, hD, WithTop.coe_lt_coe.mp hlt⟩
        · intro hPDV
          by_cases hVc : candViable M tangentialVelo radialVelo range heightDiff c
          · refine ⟨c, hmemc, hP, hD, hVc, rfl, rfl, rfl, rfl, ?_⟩
            intro c2 hc2 hp2 hd2 hv2
            rcases List.mem_append.mp hc2 with hc2 | hc2
            · -- c2 was processed earlier: the old best was viable descending
              obtain ⟨cb, hcb, hpb, hdb, hvb, hbs, hba, hbe, hbv, hmin⟩ :=
                h3 ⟨c2, hc2, hp2, hd2, hv2⟩
              have hfound : st.found = true := h1.mpr ⟨cb, hcb, hpb, hdb⟩
              have hbviable : st.bestError < ((1/2 : ℚ) : WithTop ℚ) := by
                rw [hbe]
                exact_mod_cast hvb
              rcases hrep with hf | ⟨_, hnb⟩ | ⟨_, _, hlt⟩ | ⟨hnv, _, _⟩
              · rw [hfound] at hf
                exact absurd hf (by simp)
              · exact absurd hbviable hnb
              · have : candVy M tangentialVelo radialVelo range c <
                    candVy M tangentialVelo radialVelo range cb := by
                  rw [← hbv]
                  exact hlt
                exact le_of_lt (lt_of_lt_of_le this (hmin c2 hc2 hp2 hd2 hv2))
              · exact absurd hVc hnv
            · rcases List.mem_singleton.mp hc2 with rfl
              exact le_refl _
          · -- the new candidate is not viable, so a viable one was already processed
            have hEl : ∃ x ∈ l, candPass M tangentialVelo radialVelo shooterZ ceilingHeight x ∧
                candDesc M tangentialVelo radialVelo range x ∧
                candViable M tangentialVelo radialVelo range heightDiff x := by
              rcases (exists_mem_append_singleton l c _).mp hPDV with hE | hE
              · exact hE
              · exact absurd hE.2.2 hVc
            obtain ⟨cb, hcb, hpb, hdb, hvb, hbs, hba, hbe, hbv, hmin⟩ := h3 hEl
            have hfound : st.found = true := h1.mpr ⟨cb, hcb, hpb, hdb⟩
            have hbviable : st.bestError < ((1/2 : ℚ) : WithTop ℚ) := by
              rw [hbe]
              exact_mod_cast hvb
            rcases hrep with hf | ⟨hv, _⟩ | ⟨hv, _, _⟩ | ⟨_, hnb, _⟩
            · rw [hfound] at hf
              exact absurd hf (by simp)
            · exact absurd hv hVc
            · exact absurd hv hVc
            · exact absurd hbviable hnb
      · rw [if_neg hrep]
        push_neg at hrep
        obtain ⟨hf, hrep2, hrep3, hrep4⟩ := hrep
        have hfound : st.found = true := by
          cases hb : st.found with
          | false => exact absurd hb hf
          | true => rfl
        refine ⟨iff_of_true hfound ⟨c, hmemc, hP, hD⟩, ?_, ?_⟩
        · intro _ hnV
          have hnVl : ¬(∃ x ∈ l, candPass M tangentialVelo radialVelo shooterZ ceilingHeight x ∧
              candDesc M tangentialVelo radialVelo range x ∧
              candViable M tangentialVelo radialVelo range heightDiff x) := by
            intro ⟨x, hx, hpx, hdx, hvx⟩
            exact hnV ⟨x, List.mem_append_left _ hx, hpx, hdx, hvx⟩
          exact h2 (h1.mp hfound) hnVl
        · intro hPDV
          by_cases hEl : ∃ x ∈ l, candPass M tangentialVelo radialVelo shooterZ ceilingHeight x ∧
              candDesc M tangentialVelo radialVelo range x ∧
              candViable M tangentialVelo radialVelo range heightDiff x
          · obtain ⟨cb, hcb, hpb, hdb, hvb, hbs, hba, hbe, hbv, hmin⟩ := h3 hEl
            have hbviable : st.bestError < ((1/2 : ℚ) : WithTop ℚ) := by
              rw [hbe]
              exact_mod_cast hvb
            refine ⟨cb, List.mem_append_left _ hcb, hpb, hdb, hvb, hbs, hba, hbe, hbv, ?_⟩
            intro c2 hc2 hp2 hd2 hv2
            rcases List.mem_append.mp hc2 with hc2 | hc2
            · exact hmin c2 hc2 hp2 hd2 hv2
            · rcases List.mem_singleton.mp hc2 with rfl
              have hnlt := hrep3 hv2 hbviable
              rw [hbv] at hnlt
              exact hnlt
          · -- the only viable descending candidate is c itself — impossible here
            have hVc : candViable M tangentialVelo radialVelo range heightDiff c := by
              rcases (exists_mem_append_singleton l c _).mp hPDV with hE | hE
              · exact absurd hE hEl
              · exact hE.2.2
            have hnb := h2 (h1.mp hfound) hEl
            exact absurd (hrep2 hVc) hnb
    · -- passing, non-descending candidate
      simp only [sweepBody]
      rw [if_pos hP, if_neg hD]
      have htrans : (∃ x ∈ l ++ [c],
          candPass M tangentialVelo radialVelo shooterZ ceilingHeight x ∧
          candDesc M tangentialVelo radialVelo range x) ↔
          ∃ x ∈ l, candPass M tangentialVelo radialVelo shooterZ ceilingHeight x ∧
          candDesc M tangentialVelo radialVelo range x := by
        rw [exists_mem_append_singleton]
        constructor
        · rintro (hE | hE)
          · exact hE
          · exact absurd hE.2 hD
        · exact Or.inl
      have htransV : (∃ x ∈ l ++ [c],
          candPass M tangentialVelo radialVelo shooterZ ceilingHeight x ∧
          candDesc M tangentialVelo radialVelo range x ∧
          candViable M tangentialVelo radialVelo range heightDiff x) ↔
          ∃ x ∈ l, candPass M tangentialVelo radialVelo shooterZ ceilingHeight x ∧
          candDesc M tangentialVelo radialVelo range x ∧
          candViable M tangentialVelo radialVelo range heightDiff x := by
        rw [exists_mem_append_singleton]
        constructor
        · rintro (hE | hE)
          · exact hE
          · exact absurd hE.2.1 hD
        · exact Or.inl
      by_cases hfb : st.found = false ∧
          ((candErr M tangentialVelo radialVelo range heightDiff c : WithTop ℚ) < st.bestError)
      · rw [if_pos hfb]
        have hnPD : ¬(∃ x ∈ l, candPass M tangentialVelo radialVelo shooterZ ceilingHeight x ∧
            candDesc M tangentialVelo radialVelo range x) := by
          intro hE
          rw [h1.mpr hE] at hfb
          exact absurd hfb.1 (by simp)
        refine ⟨iff_of_false (by simp [hfb.1]) (fun hE => hnPD (htrans.mp hE)), ?_, ?_⟩
        · intro hE _
          exact absurd (htrans.mp hE) hnPD
        · intro hE
          obtain ⟨x, hx, hpx, hdx, _⟩ := htransV.mp hE
          exact absurd ⟨x, hx, hpx, hdx⟩ hnPD
      · rw [if_neg hfb]
        refine ⟨h1.trans htrans.symm, ?_, ?_⟩
        · intro hE hnV
          exact h2 (htrans.mp hE) (fun hEl => hnV (htransV.mpr hEl))
        · intro hE
          obtain ⟨cb, hcb, hpb, hdb, hvb, hbs, hba, hbe, hbv, hmin⟩ := h3 (htransV.mp hE)
          refine ⟨cb, List.mem_append_left _ hcb, hpb, hdb, hvb, hbs, hba, hbe, hbv, ?_⟩
          intro c2 hc2 hp2 hd2 hv2
          rcases List.mem_append.mp hc2 with hc2 | hc2
          · exact hmin c2 hc2 hp2 hd2 hv2
          · rcases List.mem_singleton.mp hc2 with rfl
            exact absurd hd2 hD
  · -- filtered out
    simp only [sweepBody]
    rw [if_neg hP]
    have htrans : (∃ x ∈ l ++ [c],
        candPass M tangentialVelo radialVelo shooterZ ceilingHeight x ∧
        candDesc M tangentialVelo radialVelo range x) ↔
        ∃ x ∈ l, candPass M tangentialVelo radialVelo shooterZ ceilingHeight x ∧
        candDesc M tangentialVelo radialVelo range x := by
      rw [exists_mem_append_singleton]
      constructor
      · rintro (hE | hE)
        · exact hE
        · exact absurd hE.1 hP
      · exact Or.inl
    have htransV : (∃ x ∈ l ++ [c],
        candPass M tangentialVelo radialVelo shooterZ ceilingHeight x ∧
        candDesc M tangentialVelo radialVelo range x ∧
        candViable M tangentialVelo radialVelo range heightDiff x) ↔
        ∃ x ∈ l, candPass M tangentialVelo radialVelo shooterZ ceilingHeight x ∧
        candDesc M tangentialVelo radialVelo range x ∧
        candViable M tangentialVelo radialVelo range heightDiff x := by
      rw [exists_mem_append_singleton]
      constructor
      · rintro (hE | hE)
        · exact hE
        · exact absurd hE.1 hP
      · exact Or.inl
    refine ⟨h1.trans htrans.symm, ?_, ?_⟩
    · intro hE hnV
      exact h2 (htrans.mp hE) (fun hEl => hnV (htransV.mpr hEl))
    · intro hE
      obtain ⟨cb, hcb, hpb, hdb, hvb, hbs, hba, hbe, hbv, hmin⟩ := h3 (htransV.mp hE)
      refine ⟨cb, List.mem_append_left _ hcb, hpb, hdb, hvb, hbs, hba, hbe, hbv, ?_⟩
      intro c2 hc2 hp2 hd2 hv2
      rcases List.mem_append.mp hc2 with hc2 | hc2
      · exact hmin c2 hc2 hp2 hd2 hv2
      · rcases List.mem_singleton.mp hc2 with rfl
        exact absurd hp2 hP

/-- Folding the sweep body over any suffix of candidates preserves the
loop invariant. -/
theorem sweep_foldl_inv (M : JSMath)
    (tangentialVelo radialVelo range heightDiff shooterZ ceilingHeight : ℚ) :
    ∀ (l2 l1 : List (ℚ × ℚ)) (st : SweepState),
    SweepInv M tangentialVelo radialVelo range heightDiff shooterZ ceilingHeight l1 st →
    SweepInv M tangentialVelo radialVelo range heightDiff shooterZ ceilingHeight (l1 ++ l2)
      (l2.foldl (sweepBody M tangentialVelo radialVelo range heightDiff shooterZ ceilingHeight)
        st) := by
  intro l2
  induction l2 with
  | nil =>
    intro l1 st h
    rw [List.append_nil, List.foldl_nil]
    exact h
  | cons d l2 ih =>
    intro l1 st h
    rw [List.foldl_cons]
    have hstep := sweepBody_inv M tangentialVelo radialVelo range heightDiff shooterZ
      ceilingHeight l1 st d h
    have hrest := ih (l1 ++ [d]) _ hstep
    rw [List.append_assoc, List.singleton_append] at hrest
    exact hrest

/-- Claim C5: whenever some swept (speed, angle) candidate passes the
ceiling and effective-speed filters, descends (arrival vertical velocity
below −0.5) and is viable (height error under 0.5), sweepSpeedAndAngle
returns such a candidate — and one whose arrival vertical velocity is
less than or equal to that of every other passing descending viable swept
candidate (steepest descent, high-arc preference); in particular never a
non-viable or non-descending candidate. -/
theorem C5_sweep_selection (M : JSMath) (minSpeed maxSpeed : ℚ) (speedSteps : ℕ)
    (minAngleDeg maxAngleDeg tangentialVelo radialVelo range heightDiff shooterZ
      ceilingHeight : ℚ)
    (h : ∃ c ∈ sweepCandidates M minSpeed maxSpeed speedSteps minAngleDeg maxAngleDeg,
      candPass M tangentialVelo radialVelo shooterZ ceilingHeight c ∧
      candDesc M tangentialVelo radialVelo range c ∧
      candViable M tangentialVelo radialVelo range heightDiff c) :
    ∃ c ∈ sweepCandidates M minSpeed maxSpeed speedSteps minAngleDeg maxAngleDeg,
      candPass M tangentialVelo radialVelo shooterZ ceilingHeight c ∧
      candDesc M tangentialVelo radialVelo range c ∧
      candViable M tangentialVelo radialVelo range heightDiff c ∧
      (sweepSpeedAndAngle M minSpeed maxSpeed speedSteps minAngleDeg maxAngleDeg tangentialVelo
        radialVelo range heightDiff shooterZ ceilingHeight).speed = c.1 ∧
      (sweepSpeedAndAngle M minSpeed maxSpeed speedSteps minAngleDeg maxAngleDeg tangentialVelo
        radialVelo range heightDiff shooterZ ceilingHeight).angle = c.2 ∧
      (sweepSpeedAndAngle M minSpeed maxSpeed speedSteps minAngleDeg maxAngleDeg tangentialVelo
        radialVelo range heightDiff shooterZ ceilingHeight).error
        = (candErr M tangentialVelo radialVelo range heightDiff c : WithTop ℚ) ∧
      ∀ c2 ∈ sweepCandidates M minSpeed maxSpeed speedSteps minAngleDeg maxAngleDeg,
        candPass M tangentialVelo radialVelo shooterZ ceilingHeight c2 →
        candDesc M tangentialVelo radialVelo range c2 →
        candViable M tangentialVelo radialVelo range heightDiff c2 →
        candVy M tangentialVelo radialVelo range c ≤ candVy M tangentialVelo radialVelo range c2
    := by
  have hinit : SweepInv M tangentialVelo radialVelo range heightDiff shooterZ ceilingHeight []
      { bestSpeed := (minSpeed + maxSpeed) / 2,
        bestAngle := (minAngleDeg * M.pi / 180 + maxAngleDeg * M.pi / 180) / 2,
        bestError := ⊤, bestVy := 0, found := false } := by
    refine ⟨by simp, ?_, ?_⟩
    · rintro ⟨c, hc, _⟩
      exact absurd hc (List.not_mem_nil c)
    · rintro ⟨c, hc, _⟩
      exact absurd hc (List.not_mem_nil c)
  have hfold := sweep_foldl_inv M tangentialVelo radialVelo range heightDiff shooterZ
    ceilingHeight (sweepCandidates M minSpeed maxSpeed speedSteps minAngleDeg maxAngleDeg) [] _
    hinit
  rw [List.nil_append] at hfold
  obtain ⟨cb, hcb, hpb, hdb, hvb, hbs, hba, hbe, hbv, hmin⟩ := hfold.2.2 h
  refine ⟨cb, hcb, hpb, hdb, hvb, ?_, ?_, ?_, hmin⟩
  · simp only [sweepSpeedAndAngle]
    exact hbs
  · simp only [sweepSpeedAndAngle]
    exact hba
  · simp only [sweepSpeedAndAngle]
    exact hbe

/-- Witness for C5: the single-candidate sweep grid at the witness input
contains a passing descending viable candidate and the sweep returns
it. -/
theorem C5_sweep_selection_w :
    (∃ c ∈ sweepCandidates Mw 8 8 1 1 1, candPass Mw 0 0 (49/40) 4 c ∧ candDesc Mw 0 0 4 c ∧
      candViable Mw 0 0 4 (-(49/40)) c) ∧
    (∃ c ∈ sweepCandidates Mw 8 8 1 1 1, candPass Mw 0 0 (49/40) 4 c ∧ candDesc Mw 0 0 4 c ∧
      candViable Mw 0 0 4 (-(49/40)) c ∧
      (sweepSpeedAndAngle Mw 8 8 1 1 1 0 0 4 (-(49/40)) (49/40) 4).speed = c.1 ∧
      (sweepSpeedAndAngle Mw 8 8 1 1 1 0 0 4 (-(49/40)) (49/40) 4).angle = c.2 ∧
      (sweepSpeedAndAngle Mw 8 8 1 1 1 0 0 4 (-(49/40)) (49/40) 4).error
        = (candErr Mw 0 0 4 (-(49/40)) c : WithTop ℚ) ∧
      ∀ c2 ∈ sweepCandidates Mw 8 8 1 1 1, candPass Mw 0 0 (49/40) 4 c2 →
        candDesc Mw 0 0 4 c2 → candViable Mw 0 0 4 (-(49/40)) c2 →
        candVy Mw 0 0 4 c ≤ candVy Mw 0 0 4 c2) := by
  have hlist : sweepCandidates Mw 8 8 1 1 1 = [(8, 1)] := by
    norm_num [sweepCandidates, angleList, Mw, List.range_succ, List.range_zero, List.replicate,
      List.flatMap_cons, List.flatMap_nil, Function.comp]
  have hyp : ∃ c ∈ sweepCandidates Mw 8 8 1 1 1, candPass Mw 0 0 (49/40) 4 c ∧
      candDesc Mw 0 0 4 c ∧ candViable Mw 0 0 4 (-(49/40)) c := by
    refine ⟨(8, 1), by rw [hlist]; exact List.mem_singleton.mpr rfl, ?_, ?_, ?_⟩
    · constructor
      · norm_num [candApex, Mw, GRAVITY]
      · norm_num [candEff, Mw]
    · norm_num [candDesc, candVy, candT, candEff, Mw, GRAVITY]
    · norm_num [candViable, candErr, candT, candEff, Mw, GRAVITY]
  exact ⟨hyp, C5_sweep_selection Mw 8 8 1 1 1 0 0 4 (-(49/40)) (49/40) 4 hyp⟩

-- ── Grid machinery for the heatmap claims ────────────────────

/-- Reading a list updated at one index yields the new value or an
original entry. -/
theorem getD_set_or {α : Type} (l : List α) (i j : ℕ) (a d : α) :
    (l.set i a).getD j d = a ∨ (l.set i a).getD j d = l.getD j d := by
  induction l generalizing i j with
  | nil => right; rfl
  | cons x xs ih =>
    cases i with
    | zero =>
      cases j with
      | zero => left; rfl
      | succ j => right; rfl
    | succ i =>
      cases j with
      | zero => right; rfl
      | succ j => exact ih i j

/-- Reading a list updated at a different index is unchanged. -/
theorem getD_set_ne {α : Type} (l : List α) (i j : ℕ) (a d : α) (h : j ≠ i) :
    (l.set i a).getD j d = l.getD j d := by
  induction l generalizing i j with
  | nil => rfl
  | cons x xs ih =>
    cases i with
    | zero =>
      cases j with
      | zero => exact absurd rfl h
      | succ j => rfl
    | succ i =>
      cases j with
      | zero => rfl
      | succ j => exact ih i j (fun hx => h (by rw [hx]))

/-- Reading a list updated at an in-range index yields the new value. -/
theorem getD_set_self {α : Type} (l : List α) (i : ℕ) (a d : α) (h : i < l.length) :
    (l.set i a).getD i d = a := by
  induction l generalizing i with
  | nil => exact absurd h (by simp)
  | cons x xs ih =>
    cases i with
    | zero => rfl
    | succ i => exact ih i (Nat.lt_of_succ_lt_succ h)

/-- Reading a replicated list yields the element or the default. -/
theorem getD_replicate {α : Type} (n i : ℕ) (x d : α) :
    (List.replicate n x).getD i d = x ∨ (List.replicate n x).getD i d = d := by
  induction n generalizing i with
  | zero => right; rfl
  | succ n ih =>
    cases i with
    | zero => left; rfl
    | succ i => exact ih i

/-- Every cell of the initial all-UNCOMPUTED grid is none. -/
theorem getCell_replicate (rows cols r c : ℕ) :
    getCell (List.replicate rows (List.replicate cols (none : Cell))) r c = none := by
  unfold getCell
  rcases getD_replicate rows r (List.replicate cols (none : Cell)) [] with h | h <;> rw [h]
  · rcases getD_replicate cols c (none : Cell) none with h2 | h2 <;> rw [h2]
  · rfl

/-- A cell of an updated grid is the written value or some cell of the
original grid. -/
theorem getCell_setCell_cases (g : List (List Cell)) (r c : ℕ) (v : Cell) (r2 c2 : ℕ) :
    getCell (setCell g r c v) r2 c2 = v ∨
    ∃ r3 c3, getCell (setCell g r c v) r2 c2 = getCell g r3 c3 := by
  unfold getCell setCell
  rcases getD_set_or g r r2 ((g.getD r []).set c v) [] with h | h <;> rw [h]
  · rcases getD_set_or (g.getD r []) c c2 v none with h2 | h2 <;> rw [h2]
    · left; rfl
    · right; exact ⟨r, c2, rfl⟩
  · right; exact ⟨r2, c2, rfl⟩

/-- A cell at a different position than the write is unchanged. -/
theorem getCell_setCell_ne (g : List (List Cell)) (r c : ℕ) (v : Cell) (r2 c2 : ℕ)
    (h : (r2, c2) ≠ (r, c)) :
    getCell (setCell g r c v) r2 c2 = getCell g r2 c2 := by
  unfold getCell setCell
  by_cases hr : r2 = r
  · subst hr
    have hc : c2 ≠ c := fun hx => h (by rw [hx])
    by_cases hlen : r2 < g.length
    · rw [getD_set_self g r2 _ [] hlen, getD_set_ne _ _ _ _ _ hc]
    · rw [List.set_eq_of_length_le (Nat.le_of_not_lt hlen)]
  · rw [getD_set_ne _ _ _ _ _ hr]

/-- 1 for a Valid cell, 0 otherwise. -/
def cellCount (x : Cell) : ℕ := if isValid x then 1 else 0

/-- Setting one entry of a row changes its Valid count by the difference
of the old and new cell. -/
theorem countP_set_bool (l : List Cell) (c : ℕ) (v : Cell) (hc : c < l.length) :
    (l.set c v).countP isValid + cellCount (l.getD c none)
      = l.countP isValid + cellCount v := by
  induction l generalizing c with
  | nil => exact absurd hc (by simp)
  | cons x xs ih =>
    cases c with
    | zero =>
      simp only [List.set, List.countP_cons, List.getD_cons_zero]
      unfold cellCount
      split_ifs <;> omega
    | succ c =>
      simp only [List.set, List.countP_cons, List.getD_cons_succ]
      have := ih c (Nat.lt_of_succ_lt_succ hc)
      omega

/-- Replacing one row of a grid changes the total Valid count by the
difference of the old and new row counts. -/
theorem sum_map_countP_set (g : List (List Cell)) (r : ℕ) (rowNew : List Cell)
    (hr : r < g.length) :
    ((g.set r rowNew).map (fun row => row.countP isValid)).sum + (g.getD r []).countP isValid
      = (g.map (fun row => row.countP isValid)).sum + rowNew.countP isValid := by
  induction g generalizing r with
  | nil => exact absurd hr (by simp)
  | cons row g ih =>
    cases r with
    | zero =>
      simp only [List.set, List.map_cons, List.sum_cons, List.getD_cons_zero]
      omega
    | succ r =>
      simp only [List.set, List.map_cons, List.sum_cons, List.getD_cons_succ]
      have := ih r (Nat.lt_of_succ_lt_succ hr)
      omega

/-- Writing an in-bounds cell changes the grid's Valid count by the
difference of the old and new cell. -/
theorem countValid_setCell (g : List (List Cell)) (r c : ℕ) (v : Cell)
    (hr : r < g.length) (hc : c < (g.getD r []).length) :
    countValid (setCell g r c v) + cellCount (getCell g r c)
      = countValid g + cellCount v := by
  unfold countValid setCell getCell
  have h1 := sum_map_countP_set g r ((g.getD r []).set c v) hr
  have h2 := countP_set_bool (g.getD r []) c v hc
  omega

/-- Grid shape: the stated number of rows, each of the stated width. -/
def GridShape (rows cols : ℕ) (g : List (List Cell)) : Prop :=
  g.length = rows ∧ ∀ row ∈ g, row.length = cols

/-- Cell writes preserve the grid shape. -/
theorem gridShape_setCell (rows cols : ℕ) (g : List (List Cell)) (r c : ℕ) (v : Cell)
    (h : GridShape rows cols g) : GridShape rows cols (setCell g r c v) := by
  by_cases hlen : r < g.length
  · refine ⟨by rw [setCell, List.length_set]; exact h.1, ?_⟩
    intro row hrow
    rcases List.mem_or_eq_of_mem_set hrow with hmem | heq
    · exact h.2 row hmem
    · subst heq
      rw [List.length_set, List.getD_eq_getElem g [] hlen]
      exact h.2 _ (List.getElem_mem hlen)
  · rw [setCell, List.set_eq_of_length_le (Nat.le_of_not_lt hlen)]
    exact h

/-- In a shaped grid, an in-range row has the stated width. -/
theorem gridShape_row_len (rows cols : ℕ) (g : List (List Cell)) (r : ℕ)
    (h : GridShape rows cols g) (hr : r < rows) : (g.getD r []).length = cols := by
  have hlen : r < g.length := by rw [h.1]; exact hr
  rw [List.getD_eq_getElem g [] hlen]
  exact h.2 _ (List.getElem_mem hlen)

/-- accumStats leaves the grid untouched. -/
theorem accumStats_results (d : HeatmapData) (r : ShotResult) :
    (accumStats d r).results = d.results := rfl

/-- accumStats counts exactly one valid result. -/
theorem accumStats_validCount (d : HeatmapData) (r : ShotResult) :
    (accumStats d r).validCount = d.validCount + 1 := rfl

/-- The heatmap bookkeeping invariant carried across all four phases: the
running validCount equals the number of Valid cells, and the grid keeps
its allocated shape. -/
def HInv (rows cols : ℕ) (d : HeatmapData) : Prop :=
  d.validCount = countValid d.results ∧ GridShape rows cols d.results

/-- Seed positions lie inside the grid. -/
theorem mem_seedPositions (rows cols spacing : ℕ) (rc : ℕ × ℕ)
    (h : rc ∈ seedPositions rows cols spacing) : rc.1 < rows ∧ rc.2 < cols := by
  unfold seedPositions at h
  rw [List.mem_flatMap] at h
  obtain ⟨r, hr, hm⟩ := h
  rw [List.mem_map] at hm
  obtain ⟨c, hc, hrc⟩ := hm
  rw [List.mem_filter, List.mem_range] at hr hc
  subst hrc
  exact ⟨hr.1, hc.1⟩

/-- Straggler/recovery positions lie inside the grid. -/
theorem mem_allPositions (rows cols : ℕ) (rc : ℕ × ℕ)
    (h : rc ∈ allPositions rows cols) : rc.1 < rows ∧ rc.2 < cols := by
  unfold allPositions at h
  rw [List.mem_flatMap] at h
  obtain ⟨r, hr, hm⟩ := h
  rw [List.mem_map] at hm
  obtain ⟨c, hc, hrc⟩ := hm
  rw [List.mem_range] at hr hc
  subst hrc
  exact ⟨hr, hc⟩

/-- Pairing distinct rows with distinct columns yields distinct cells. -/
theorem nodup_pairList (rl cl : List ℕ) (hr : rl.Nodup) (hc : cl.Nodup) :
    (rl.flatMap (fun r => cl.map (fun c => (r, c)))).Nodup := by
  induction rl with
  | nil => exact List.nodup_nil
  | cons r rs ih =>
    rw [List.flatMap_cons, List.nodup_append]
    have hcons := List.nodup_cons.mp hr
    have hinj : Function.Injective (fun c => (r, c) : ℕ → ℕ × ℕ) := by
      intro a b hab
      exact (Prod.ext_iff.mp hab).2
    refine ⟨hc.map hinj, ih hcons.2, ?_⟩
    intro a ha hb
    rw [List.mem_map] at ha
    obtain ⟨c, _, hac⟩ := ha
    rw [List.mem_flatMap] at hb
    obtain ⟨r2, hr2, hmr2⟩ := hb
    rw [List.mem_map] at hmr2
    obtain ⟨c2, _, hac2⟩ := hmr2
    rw [← hac] at hac2
    have hq : r2 = r := (Prod.ext_iff.mp hac2).1
    rw [hq] at hr2
    exact hcons.1 hr2

/-- The seed phase visits pairwise distinct cells. -/
theorem nodup_seedPositions (rows cols spacing : ℕ) :
    (seedPositions rows cols spacing).Nodup :=
  nodup_pairList _ _ ((List.nodup_range rows).filter _) ((List.nodup_range cols).filter _)

/-- writeEval, written out by cases on the evaluation outcome. -/
theorem writeEval_eq (M : JSMath) (p : Params) (res0 : ℚ)
    (st : HeatmapData × List (ℕ × ℕ)) (rc : ℕ × ℕ) :
    writeEval M p res0 st rc =
      match evaluateShot M (((rc.2 : ℚ) + 1/2) * res0) (((rc.1 : ℚ) + 1/2) * res0) p with
      | some r =>
        (accumStats { st.1 with
          results := setCell st.1.results rc.1 rc.2 (some (some r)) } r, st.2 ++ [rc])
      | none =>
        ({ st.1 with
          results := setCell st.1.results rc.1 rc.2 (some none) }, st.2) := by
  cases he : evaluateShot M (((rc.2 : ℚ) + 1/2) * res0) (((rc.1 : ℚ) + 1/2) * res0) p <;>
    simp only [writeEval, he]

/-- UNCOMPUTED and null cells are not Valid. -/
theorem cellCount_none : cellCount none = 0 := rfl

/-- A stored null result is not Valid. -/
theorem cellCount_some_none : cellCount (some none) = 0 := rfl

/-- A stored result is Valid. -/
theorem cellCount_some_some (r : ShotResult) : cellCount (some (some r)) = 1 := rfl

/-- The seed-phase fold preserves the bookkeeping invariant when its
pending cells are distinct, in bounds and still UNCOMPUTED. -/
theorem writeEval_fold_hinv (M : JSMath) (p : Params) (res0 : ℚ) (rows cols : ℕ) :
    ∀ (l : List (ℕ × ℕ)) (st : HeatmapData × List (ℕ × ℕ)),
      HInv rows cols st.1 → l.Nodup →
      (∀ rc ∈ l, rc.1 < rows ∧ rc.2 < cols ∧ getCell st.1.results rc.1 rc.2 = none) →
      HInv rows cols ((l.foldl (writeEval M p res0) st).1) := by
  intro l
  induction l with
  | nil => intro st h _ _; exact h
  | cons rc l ih =>
    intro st h hnd hpend
    obtain ⟨r, c⟩ := rc
    rw [List.foldl_cons]
    have hhead := hpend (r, c) (List.mem_cons.mpr (Or.inl rfl))
    have hrl : r < st.1.results.length := by rw [h.2.1]; exact hhead.1
    have hcl : c < (st.1.results.getD r []).length := by
      rw [gridShape_row_len rows cols _ r h.2 hhead.1]; exact hhead.2.1
    have hcons := List.nodup_cons.mp hnd
    have hpend2 : ∀ rc2 ∈ l, (rc2.1, rc2.2) ≠ (r, c) := by
      intro rc2 hm hp
      apply hcons.1
      have : rc2 = (r, c) := by rw [← hp]
      exact this ▸ hm
    cases he : evaluateShot M (((c : ℚ) + 1/2) * res0) (((r : ℚ) + 1/2) * res0) p with
    | none =>
      have hst : writeEval M p res0 st (r, c) =
          ({ st.1 with results := setCell st.1.results r c (some none) }, st.2) := by
        rw [writeEval_eq]; rw [he]
      rw [hst]
      refine ih _ ?_ hcons.2 ?_
      · refine And.intro ?_ ?_
        · have hcnt := countValid_setCell st.1.results r c (some none) hrl hcl
          rw [hhead.2.2, cellCount_none, cellCount_some_none] at hcnt
          have h1 : st.1.validCount = countValid st.1.results := h.1
          show st.1.validCount = countValid (setCell st.1.results r c (some none))
          omega
        · exact gridShape_setCell rows cols _ r c _ h.2
      · intro rc2 hm
        obtain ⟨h1, h2, h3⟩ := hpend (r, c) (List.mem_cons.mpr (Or.inl rfl))
        obtain ⟨g1, g2, g3⟩ := hpend rc2 (List.mem_cons.mpr (Or.inr hm))
        refine ⟨g1, g2, ?_⟩
        show getCell (setCell st.1.results r c (some none)) rc2.1 rc2.2 = none
        rw [getCell_setCell_ne _ _ _ _ _ _ (hpend2 rc2 hm)]
        exact g3
    | some r0 =>
      have hst : writeEval M p res0 st (r, c) =
          (accumStats { st.1 with
            results := setCell st.1.results r c (some (some r0)) } r0, st.2 ++ [(r, c)]) := by
        rw [writeEval_eq]; rw [he]
      rw [hst]
      refine ih _ ?_ hcons.2 ?_
      · refine And.intro ?_ ?_
        · have hcnt := countValid_setCell st.1.results r c (some (some r0)) hrl hcl
          rw [hhead.2.2, cellCount_none, cellCount_some_some] at hcnt
          have h1 : st.1.validCount = countValid st.1.results := h.1
          show st.1.validCount + 1 = countValid (setCell st.1.results r c (some (some r0)))
          omega
        · show GridShape rows cols (setCell st.1.results r c (some (some r0)))
          exact gridShape_setCell rows cols _ r c _ h.2
      · intro rc2 hm
        obtain ⟨g1, g2, g3⟩ := hpend rc2 (List.mem_cons.mpr (Or.inr hm))
        refine ⟨g1, g2, ?_⟩
        show getCell (setCell st.1.results r c (some (some r0))) rc2.1 rc2.2 = none
        rw [getCell_setCell_ne _ _ _ _ _ _ (hpend2 rc2 hm)]
        exact g3

/-- Storing a valid result over an UNCOMPUTED or null in-bounds cell and
counting it preserves the bookkeeping invariant. -/
theorem hinv_write_valid (rows cols : ℕ) (d : HeatmapData) (nr nc : ℕ) (r0 : ShotResult)
    (h : HInv rows cols d) (hnr : nr < rows) (hnc : nc < cols)
    (hcell : getCell d.results nr nc = none ∨ getCell d.results nr nc = some none) :
    HInv rows cols (accumStats { d with
      results := setCell d.results nr nc (some (some r0)) } r0) := by
  have hrl : nr < d.results.length := by rw [h.2.1]; exact hnr
  have hcl : nc < (d.results.getD nr []).length := by
    rw [gridShape_row_len rows cols _ nr h.2 hnr]; exact hnc
  have hcnt := countValid_setCell d.results nr nc (some (some r0)) hrl hcl
  have h1 := h.1
  refine And.intro ?_ ?_
  · show d.validCount + 1 = countValid (setCell d.results nr nc (some (some r0)))
    rcases hcell with hc | hc <;> rw [hc] at hcnt
    · rw [cellCount_none, cellCount_some_some] at hcnt; omega
    · rw [cellCount_some_none, cellCount_some_some] at hcnt; omega
  · show GridShape rows cols (setCell d.results nr nc (some (some r0)))
    exact gridShape_setCell rows cols _ nr nc _ h.2

/-- Storing a null result over an UNCOMPUTED in-bounds cell preserves the
bookkeeping invariant. -/
theorem hinv_write_none (rows cols : ℕ) (d : HeatmapData) (nr nc : ℕ)
    (h : HInv rows cols d) (hnr : nr < rows) (hnc : nc < cols)
    (hcell : getCell d.results nr nc = none) :
    HInv rows cols { d with results := setCell d.results nr nc (some none) } := by
  have hrl : nr < d.results.length := by rw [h.2.1]; exact hnr
  have hcl : nc < (d.results.getD nr []).length := by
    rw [gridShape_row_len rows cols _ nr h.2 hnr]; exact hnc
  have hcnt := countValid_setCell d.results nr nc (some none) hrl hcl
  have h1 := h.1
  refine And.intro ?_ ?_
  · show d.validCount = countValid (setCell d.results nr nc (some none))
    rw [hcell, cellCount_none, cellCount_some_none] at hcnt
    omega
  · show GridShape rows cols (setCell d.results nr nc (some none))
    exact gridShape_setCell rows cols _ nr nc _ h.2

/-- One propagation step preserves the bookkeeping invariant. -/
theorem bfsNeighbor_hinv (M : JSMath) (p : Params) (res0 : ℚ) (rows cols : ℕ)
    (parent : ShotResult) (pr pc : ℕ) (st : HeatmapData × List (ℕ × ℕ)) (dir : ℤ × ℤ)
    (h : HInv rows cols st.1) :
    HInv rows cols ((bfsNeighbor M p res0 rows cols parent pr pc st dir).1) := by
  by_cases hb : 0 ≤ (pr : ℤ) + dir.1 ∧ (pr : ℤ) + dir.1 < (rows : ℤ) ∧
      0 ≤ (pc : ℤ) + dir.2 ∧ (pc : ℤ) + dir.2 < (cols : ℤ)
  · by_cases hcell : getCell st.1.results ((pr : ℤ) + dir.1).toNat ((pc : ℤ) + dir.2).toNat = none
    · have hnr : ((pr : ℤ) + dir.1).toNat < rows := by
        obtain ⟨hb1, hb2, hb3, hb4⟩ := hb
        omega
      have hnc : ((pc : ℤ) + dir.2).toNat < cols := by
        obtain ⟨hb1, hb2, hb3, hb4⟩ := hb
        omega
      cases he : evaluateShotWithHint M (((((pc : ℤ) + dir.2).toNat : ℚ) + 1/2) * res0)
          (((((pr : ℤ) + dir.1).toNat : ℚ) + 1/2) * res0) p parent.shotSpeed
          (parent.hoodAngleDeg * M.pi / 180) with
      | none =>
        simp only [bfsNeighbor, he]
        rw [if_pos hb, if_neg (not_not_intro hcell)]
        exact hinv_write_none rows cols st.1 _ _ h hnr hnc hcell
      | some r0 =>
        simp only [bfsNeighbor, he]
        rw [if_pos hb, if_neg (not_not_intro hcell)]
        exact hinv_write_valid rows cols st.1 _ _ r0 h hnr hnc (Or.inl hcell)
    · simp only [bfsNeighbor]
      rw [if_pos hb, if_pos hcell]
      exact h
  · simp only [bfsNeighbor]
    rw [if_neg hb]
    exact h

/-- The four-direction propagation fold preserves the bookkeeping
invariant. -/
theorem bfsFold_hinv (M : JSMath) (p : Params) (res0 : ℚ) (rows cols : ℕ)
    (parent : ShotResult) (pr pc : ℕ) :
    ∀ (dirs : List (ℤ × ℤ)) (st : HeatmapData × List (ℕ × ℕ)), HInv rows cols st.1 →
      HInv rows cols ((dirs.foldl (bfsNeighbor M p res0 rows cols parent pr pc) st).1) := by
  intro dirs
  induction dirs with
  | nil => intro st h; exact h
  | cons dir ds ih =>
    intro st h
    rw [List.foldl_cons]
    exact ih _ (bfsNeighbor_hinv M p res0 rows cols parent pr pc st dir h)

/-- The whole propagation loop preserves the bookkeeping invariant. -/
theorem bfsLoop_hinv (M : JSMath) (p : Params) (res0 : ℚ) (rows cols : ℕ) :
    ∀ (n : ℕ) (d : HeatmapData) (q : List (ℕ × ℕ)), HInv rows cols d →
      HInv rows cols (bfsLoop M p res0 rows cols n d q) := by
  intro n
  induction n with
  | zero => intro d q h; exact h
  | succ n ih =>
    intro d q h
    cases q with
    | nil => exact h
    | cons rc rest =>
      obtain ⟨pr, pc⟩ := rc
      simp only [bfsLoop]
      split
      · exact ih _ _ (bfsFold_hinv M p res0 rows cols _ pr pc dirList (d, rest) h)
      · exact ih _ _ h

/-- One straggler-sweep step preserves the bookkeeping invariant. -/
theorem sweepStraggler_hinv (M : JSMath) (p : Params) (res0 : ℚ) (rows cols : ℕ)
    (d : HeatmapData) (rc : ℕ × ℕ) (h : HInv rows cols d)
    (hnr : rc.1 < rows) (hnc : rc.2 < cols) :
    HInv rows cols (sweepStraggler M p res0 d rc) := by
  by_cases hcell : getCell d.results rc.1 rc.2 = none
  · cases he : evaluateShot M (((rc.2 : ℚ) + 1/2) * res0) (((rc.1 : ℚ) + 1/2) * res0) p with
    | none =>
      simp only [sweepStraggler, he]
      rw [if_neg (not_not_intro hcell)]
      exact hinv_write_none rows cols d _ _ h hnr hnc hcell
    | some r0 =>
      simp only [sweepStraggler, he]
      rw [if_neg (not_not_intro hcell)]
      exact hinv_write_valid rows cols d _ _ r0 h hnr hnc (Or.inl hcell)
  · simp only [sweepStraggler]
    rw [if_pos hcell]
    exact h

/-- The straggler fold preserves the bookkeeping invariant. -/
theorem straggler_fold_hinv (M : JSMath) (p : Params) (res0 : ℚ) (rows cols : ℕ) :
    ∀ (l : List (ℕ × ℕ)) (d : HeatmapData), HInv rows cols d →
      (∀ rc ∈ l, rc.1 < rows ∧ rc.2 < cols) →
      HInv rows cols (l.foldl (sweepStraggler M p res0) d) := by
  intro l
  induction l with
  | nil => intro d h _; exact h
  | cons rc l ih =>
    intro d h hb
    rw [List.foldl_cons]
    have hh := hb rc (List.mem_cons.mpr (Or.inl rfl))
    exact ih _ (sweepStraggler_hinv M p res0 rows cols d rc h hh.1 hh.2)
      (fun rc2 hm => hb rc2 (List.mem_cons.mpr (Or.inr hm)))

/-- One recovery step preserves the bookkeeping invariant. -/
theorem recoverCell_hinv (M : JSMath) (p : Params) (res0 : ℚ) (rows cols : ℕ)
    (d : HeatmapData) (rc : ℕ × ℕ) (h : HInv rows cols d)
    (hnr : rc.1 < rows) (hnc : rc.2 < cols) :
    HInv rows cols (recoverCell M p res0 rows cols d rc) := by
  simp only [recoverCell]
  by_cases hcell : getCell d.results rc.1 rc.2 = some none
  · rw [if_neg (not_not_intro hcell)]
    split
    · exact h
    · split
      · exact hinv_write_valid rows cols d _ _ _ h hnr hnc (Or.inr hcell)
      · exact h
  · rw [if_pos hcell]
    exact h

/-- The recovery fold preserves the bookkeeping invariant. -/
theorem recover_fold_hinv (M : JSMath) (p : Params) (res0 : ℚ) (rows cols : ℕ) :
    ∀ (l : List (ℕ × ℕ)) (d : HeatmapData), HInv rows cols d →
      (∀ rc ∈ l, rc.1 < rows ∧ rc.2 < cols) →
      HInv rows cols (l.foldl (recoverCell M p res0 rows cols) d) := by
  intro l
  induction l with
  | nil => intro d h _; exact h
  | cons rc l ih =>
    intro d h hb
    rw [List.foldl_cons]
    have hh := hb rc (List.mem_cons.mpr (Or.inl rfl))
    exact ih _ (recoverCell_hinv M p res0 rows cols d rc h hh.1 hh.2)
      (fun rc2 hm => hb rc2 (List.mem_cons.mpr (Or.inr hm)))

/-- The freshly allocated grid has no Valid cells. -/
theorem countValid_replicate (rows cols : ℕ) :
    countValid (List.replicate rows (List.replicate cols (none : Cell))) = 0 := by
  unfold countValid
  rw [List.map_replicate]
  have hz : (List.replicate cols (none : Cell)).countP isValid = 0 := by
    rw [List.countP_eq_zero]
    intro a ha
    rw [(List.mem_replicate.mp ha).2]
    exact fun hx => Bool.noConfusion hx
  rw [hz, List.sum_replicate, smul_eq_mul, Nat.mul_zero]

/-- The four-phase pipeline preserves the bookkeeping invariant from any
properly shaped start whose seed cells are UNCOMPUTED. -/
theorem pipeline_hinv (M : JSMath) (p : Params) (res0 : ℚ) (rows cols spacing fuel : ℕ)
    (d0 : HeatmapData) (h0 : HInv rows cols d0)
    (hpend : ∀ rc ∈ seedPositions rows cols spacing, getCell d0.results rc.1 rc.2 = none) :
    HInv rows cols
      ((allPositions rows cols).foldl (recoverCell M p res0 rows cols)
        ((allPositions rows cols).foldl (sweepStraggler M p res0)
          (bfsLoop M p res0 rows cols fuel
            ((seedPositions rows cols spacing).foldl (writeEval M p res0) (d0, [])).1
            ((seedPositions rows cols spacing).foldl (writeEval M p res0) (d0, [])).2))) := by
  have h1 := writeEval_fold_hinv M p res0 rows cols (seedPositions rows cols spacing) (d0, [])
    h0 (nodup_seedPositions rows cols spacing)
    (fun rc hm => ⟨(mem_seedPositions rows cols spacing rc hm).1,
      (mem_seedPositions rows cols spacing rc hm).2, hpend rc hm⟩)
  have h2 := bfsLoop_hinv M p res0 rows cols fuel
    ((seedPositions rows cols spacing).foldl (writeEval M p res0) (d0, [])).1
    ((seedPositions rows cols spacing).foldl (writeEval M p res0) (d0, [])).2 h1
  have h3 := straggler_fold_hinv M p res0 rows cols (allPositions rows cols) _ h2
    (fun rc hm => mem_allPositions rows cols rc hm)
  exact recover_fold_hinv M p res0 rows cols (allPositions rows cols) _ h3
    (fun rc hm => mem_allPositions rows cols rc hm)

/-- The bookkeeping invariant holds for the finished heatmap. -/
theorem computeHeatmap_hinv (M : JSMath) (p : Params) :
    HInv (⌈FIELD_WIDTH / p.gridRes⌉.toNat)
      (⌈min FIELD_LENGTH (p.targetX + DISPLAY_BUFFER) / p.gridRes⌉.toNat)
      (computeHeatmap M p) := by
  have h0 : HInv (⌈FIELD_WIDTH / p.gridRes⌉.toNat)
      (⌈min FIELD_LENGTH (p.targetX + DISPLAY_BUFFER) / p.gridRes⌉.toNat)
      { cols := (⌈min FIELD_LENGTH (p.targetX + DISPLAY_BUFFER) / p.gridRes⌉).toNat,
        rows := (⌈FIELD_WIDTH / p.gridRes⌉).toNat, res := p.gridRes,
        results := List.replicate (⌈FIELD_WIDTH / p.gridRes⌉).toNat
          (List.replicate (⌈min FIELD_LENGTH (p.targetX + DISPLAY_BUFFER) / p.gridRes⌉).toNat
            (none : Cell)),
        minSpeed := ⊤, maxSpeed := ⊥, minAngle := ⊤, maxAngle := ⊥, validCount := 0 } := by
    refine And.intro ?_ ?_
    · show 0 = countValid (List.replicate _ (List.replicate _ (none : Cell)))
      rw [countValid_replicate]
    · refine ⟨List.length_replicate _ _, ?_⟩
      intro row hrow
      rw [(List.mem_replicate.mp hrow).2]
      exact List.length_replicate _ _
  exact pipeline_hinv M p p.gridRes _ _ _ _ _ h0
    (fun rc _ => getCell_replicate _ _ rc.1 rc.2)

/-- Claim C4: computeHeatmap returns a HeatmapData whose validCount field
equals the number of Valid cells of its results grid (cells holding a
ShotResult, as opposed to null or UNCOMPUTED), each valid cell being
counted exactly once across the seed, propagation, straggler and recovery
phases. -/
theorem C4_validCount_matches (M : JSMath) (p : Params) :
    (computeHeatmap M p).validCount = countValid (computeHeatmap M p).results :=
  (computeHeatmap_hinv M p).1

-- ── A grid-wide result invariant carried through the phases ──

/-- Every Valid cell of the grid satisfies Q. -/
def GridQ (Q : ShotResult → Prop) (g : List (List Cell)) : Prop :=
  ∀ r c res, getCell g r c = some (some res) → Q res

/-- A cell write whose stored value satisfies Q preserves the grid-wide
invariant. -/
theorem gridQ_setCell (Q : ShotResult → Prop) (g : List (List Cell)) (r c : ℕ) (v : Cell)
    (hg : GridQ Q g) (hv : ∀ res, v = some (some res) → Q res) :
    GridQ Q (setCell g r c v) := by
  intro r2 c2 res hres
  rcases getCell_setCell_cases g r c v r2 c2 with h | ⟨r3, c3, h⟩
  · exact hv res (h.symm.trans hres)
  · exact hg r3 c3 res (h.symm.trans hres)

/-- The seed fold preserves the grid-wide invariant when full evaluation
only produces Q results. -/
theorem writeEval_fold_gridQ (M : JSMath) (p : Params) (res0 : ℚ) (Q : ShotResult → Prop)
    (hA : ∀ fx fy r, evaluateShot M fx fy p = some r → Q r) :
    ∀ (l : List (ℕ × ℕ)) (st : HeatmapData × List (ℕ × ℕ)),
      GridQ Q st.1.results → GridQ Q ((l.foldl (writeEval M p res0) st).1.results) := by
  intro l
  induction l with
  | nil => intro st h; exact h
  | cons rc l ih =>
    intro st h
    rw [List.foldl_cons]
    apply ih
    cases he : evaluateShot M (((rc.2 : ℚ) + 1/2) * res0) (((rc.1 : ℚ) + 1/2) * res0) p with
    | none =>
      rw [writeEval_eq, he]
      exact gridQ_setCell Q _ _ _ _ h
        (fun res hx => Option.noConfusion (Option.some_inj.mp hx))
    | some r0 =>
      rw [writeEval_eq, he]
      exact gridQ_setCell Q _ _ _ _ h
        (fun res hx => Option.some_inj.mp (Option.some_inj.mp hx) ▸ hA _ _ r0 he)

/-- One propagation step from a Q parent preserves the grid-wide
invariant when hinted evaluation from that parent only produces Q
results. -/
theorem bfsNeighbor_gridQ (M : JSMath) (p : Params) (res0 : ℚ) (rows cols : ℕ)
    (parent : ShotResult) (pr pc : ℕ) (st : HeatmapData × List (ℕ × ℕ)) (dir : ℤ × ℤ)
    (Q : ShotResult → Prop)
    (hBp : ∀ fx fy r, evaluateShotWithHint M fx fy p parent.shotSpeed
      (parent.hoodAngleDeg * M.pi / 180) = some r → Q r)
    (h : GridQ Q st.1.results) :
    GridQ Q ((bfsNeighbor M p res0 rows cols parent pr pc st dir).1.results) := by
  by_cases hb : 0 ≤ (pr : ℤ) + dir.1 ∧ (pr : ℤ) + dir.1 < (rows : ℤ) ∧
      0 ≤ (pc : ℤ) + dir.2 ∧ (pc : ℤ) + dir.2 < (cols : ℤ)
  · by_cases hcell : getCell st.1.results ((pr : ℤ) + dir.1).toNat ((pc : ℤ) + dir.2).toNat = none
    · cases he : evaluateShotWithHint M (((((pc : ℤ) + dir.2).toNat : ℚ) + 1/2) * res0)
          (((((pr : ℤ) + dir.1).toNat : ℚ) + 1/2) * res0) p parent.shotSpeed
          (parent.hoodAngleDeg * M.pi / 180) with
      | none =>
        simp only [bfsNeighbor, he]
        rw [if_pos hb, if_neg (not_not_intro hcell)]
        exact gridQ_setCell Q _ _ _ _ h
          (fun res hx => Option.noConfusion (Option.some_inj.mp hx))
      | some r0 =>
        simp only [bfsNeighbor, he]
        rw [if_pos hb, if_neg (not_not_intro hcell)]
        exact gridQ_setCell Q _ _ _ _ h
          (fun res hx => Option.some_inj.mp (Option.some_inj.mp hx) ▸ hBp _ _ r0 he)
    · simp only [bfsNeighbor]
      rw [if_pos hb, if_pos hcell]
      exact h
  · simp only [bfsNeighbor]
    rw [if_neg hb]
    exact h

/-- The four-direction propagation fold preserves the grid-wide
invariant. -/
theorem bfsFold_gridQ (M : JSMath) (p : Params) (res0 : ℚ) (rows cols : ℕ)
    (parent : ShotResult) (pr pc : ℕ) (Q : ShotResult → Prop)
    (hBp : ∀ fx fy r, evaluateShotWithHint M fx fy p parent.shotSpeed
      (parent.hoodAngleDeg * M.pi / 180) = some r → Q r) :
    ∀ (dirs : List (ℤ × ℤ)) (st : HeatmapData × List (ℕ × ℕ)), GridQ Q st.1.results →
      GridQ Q ((dirs.foldl (bfsNeighbor M p res0 rows cols parent pr pc) st).1.results) := by
  intro dirs
  induction dirs with
  | nil => intro st h; exact h
  | cons dir ds ih =>
    intro st h
    rw [List.foldl_cons]
    exact ih _ (bfsNeighbor_gridQ M p res0 rows cols parent pr pc st dir Q hBp h)

/-- The whole propagation loop preserves the grid-wide invariant: each
dequeued parent is read from the grid, hence satisfies Q, so its hinted
children do too. -/
theorem bfsLoop_gridQ (M : JSMath) (p : Params) (res0 : ℚ) (rows cols : ℕ)
    (Q : ShotResult → Prop)
    (hB : ∀ parent, Q parent → ∀ fx fy r, evaluateShotWithHint M fx fy p parent.shotSpeed
      (parent.hoodAngleDeg * M.pi / 180) = some r → Q r) :
    ∀ (n : ℕ) (d : HeatmapData) (q : List (ℕ × ℕ)), GridQ Q d.results →
      GridQ Q (bfsLoop M p res0 rows cols n d q).results := by
  intro n
  induction n with
  | zero => intro d q h; exact h
  | succ n ih =>
    intro d q h
    cases q with
    | nil => exact h
    | cons rc rest =>
      obtain ⟨pr, pc⟩ := rc
      simp only [bfsLoop]
      split
      · rename_i parent heq
        exact ih _ _ (bfsFold_gridQ M p res0 rows cols parent pr pc Q
          (hB parent (h pr pc parent heq)) dirList (d, rest) h)
      · exact ih _ _ h

/-- One straggler step preserves the grid-wide invariant. -/
theorem sweepStraggler_gridQ (M : JSMath) (p : Params) (res0 : ℚ) (Q : ShotResult → Prop)
    (hA : ∀ fx fy r, evaluateShot M fx fy p = some r → Q r)
    (d : HeatmapData) (rc : ℕ × ℕ) (h : GridQ Q d.results) :
    GridQ Q ((sweepStraggler M p res0 d rc).results) := by
  by_cases hcell : getCell d.results rc.1 rc.2 = none
  · cases he : evaluateShot M (((rc.2 : ℚ) + 1/2) * res0) (((rc.1 : ℚ) + 1/2) * res0) p with
    | none =>
      simp only [sweepStraggler, he]
      rw [if_neg (not_not_intro hcell)]
      exact gridQ_setCell Q _ _ _ _ h
        (fun res hx => Option.noConfusion (Option.some_inj.mp hx))
    | some r0 =>
      simp only [sweepStraggler, he]
      rw [if_neg (not_not_intro hcell)]
      exact gridQ_setCell Q _ _ _ _ h
        (fun res hx => Option.some_inj.mp (Option.some_inj.mp hx) ▸ hA _ _ r0 he)
  · simp only [sweepStraggler]
    rw [if_pos hcell]
    exact h

/-- The straggler fold preserves the grid-wide invariant. -/
theorem straggler_fold_gridQ (M : JSMath) (p : Params) (res0 : ℚ) (Q : ShotResult → Prop)
    (hA : ∀ fx fy r, evaluateShot M fx fy p = some r → Q r) :
    ∀ (l : List (ℕ × ℕ)) (d : HeatmapData), GridQ Q d.results →
      GridQ Q ((l.foldl (sweepStraggler M p res0) d).results) := by
  intro l
  induction l with
  | nil => intro d h; exact h
  | cons rc l ih =>
    intro d h
    rw [List.foldl_cons]
    exact ih _ (sweepStraggler_gridQ M p res0 Q hA d rc h)

/-- A hint returned by the recovery neighbor search is stored in some
Valid cell of the grid. -/
theorem firstValidNeighbor_some (g : List (List Cell)) (rows cols r c : ℕ) :
    ∀ (ds : List (ℤ × ℤ)) (hint : ShotResult),
      firstValidNeighbor g rows cols r c ds = some hint →
      ∃ r2 c2, getCell g r2 c2 = some (some hint) := by
  intro ds
  induction ds with
  | nil =>
    intro hint h
    exact absurd h (fun hx => Option.noConfusion hx)
  | cons dir ds ih =>
    intro hint h
    rw [firstValidNeighbor] at h
    split at h
    · split at h
      · rename_i heq
        exact ⟨_, _, by rw [heq, Option.some_inj.mp h]⟩
      · exact ih hint h
    · exact ih hint h

/-- One recovery step preserves the grid-wide invariant: the hint comes
from a Valid cell, hence satisfies Q, so the hinted retry does too. -/
theorem recoverCell_gridQ (M : JSMath) (p : Params) (res0 : ℚ) (rows cols : ℕ)
    (Q : ShotResult → Prop)
    (hB : ∀ parent, Q parent → ∀ fx fy r, evaluateShotWithHint M fx fy p parent.shotSpeed
      (parent.hoodAngleDeg * M.pi / 180) = some r → Q r)
    (d : HeatmapData) (rc : ℕ × ℕ) (h : GridQ Q d.results) :
    GridQ Q ((recoverCell M p res0 rows cols d rc).results) := by
  by_cases hg : getCell d.results rc.1 rc.2 ≠ some none
  · simp only [recoverCell]
    rw [if_pos hg]
    exact h
  · cases hf : firstValidNeighbor d.results rows cols rc.1 rc.2 dirList with
    | none =>
      simp only [recoverCell, hf]
      rw [if_neg hg]
      exact h
    | some hint =>
      have hq : Q hint := by
        obtain ⟨r2, c2, hcell2⟩ := firstValidNeighbor_some d.results rows cols rc.1 rc.2
          dirList hint hf
        exact h r2 c2 hint hcell2
      cases he : evaluateShotWithHint M (((rc.2 : ℚ) + 1/2) * res0) (((rc.1 : ℚ) + 1/2) * res0) p
          hint.shotSpeed (hint.hoodAngleDeg * M.pi / 180) with
      | none =>
        simp only [recoverCell, hf, he]
        rw [if_neg hg]
        exact h
      | some r1 =>
        simp only [recoverCell, hf, he]
        rw [if_neg hg]
        show GridQ Q ((accumStats { d with
          results := setCell d.results rc.1 rc.2 (some (some r1)) } r1).results)
        rw [accumStats_results]
        exact gridQ_setCell Q _ _ _ _ h
          (fun res hx => Option.some_inj.mp (Option.some_inj.mp hx) ▸ hB hint hq _ _ r1 he)

/-- The recovery fold preserves the grid-wide invariant. -/
theorem recover_fold_gridQ (M : JSMath) (p : Params) (res0 : ℚ) (rows cols : ℕ)
    (Q : ShotResult → Prop)
    (hB : ∀ parent, Q parent → ∀ fx fy r, evaluateShotWithHint M fx fy p parent.shotSpeed
      (parent.hoodAngleDeg * M.pi / 180) = some r → Q r) :
    ∀ (l : List (ℕ × ℕ)) (d : HeatmapData), GridQ Q d.results →
      GridQ Q ((l.foldl (recoverCell M p res0 rows cols) d).results) := by
  intro l
  induction l with
  | nil => intro d h; exact h
  | cons rc l ih =>
    intro d h
    rw [List.foldl_cons]
    exact ih _ (recoverCell_gridQ M p res0 rows cols Q hB d rc h)

/-- Any property established by full evaluation and preserved by hinted
evaluation from a Q parent holds of every Valid cell of the finished
heatmap. -/
theorem pipeline_gridQ (M : JSMath) (p : Params) (res0 : ℚ) (rows cols spacing fuel : ℕ)
    (d0 : HeatmapData) (Q : ShotResult → Prop)
    (hA : ∀ fx fy r, evaluateShot M fx fy p = some r → Q r)
    (hB : ∀ parent, Q parent → ∀ fx fy r, evaluateShotWithHint M fx fy p parent.shotSpeed
      (parent.hoodAngleDeg * M.pi / 180) = some r → Q r)
    (h0 : GridQ Q d0.results) :
    GridQ Q
      ((allPositions rows cols).foldl (recoverCell M p res0 rows cols)
        ((allPositions rows cols).foldl (sweepStraggler M p res0)
          (bfsLoop M p res0 rows cols fuel
            ((seedPositions rows cols spacing).foldl (writeEval M p res0) (d0, [])).1
            ((seedPositions rows cols spacing).foldl (writeEval M p res0) (d0, [])).2))).results := by
  have h1 := writeEval_fold_gridQ M p res0 Q hA (seedPositions rows cols spacing) (d0, []) h0
  have h2 := bfsLoop_gridQ M p res0 rows cols Q hB fuel
    ((seedPositions rows cols spacing).foldl (writeEval M p res0) (d0, [])).1
    ((seedPositions rows cols spacing).foldl (writeEval M p res0) (d0, [])).2 h1
  have h3 := straggler_fold_gridQ M p res0 Q hA (allPositions rows cols) _ h2
  exact recover_fold_gridQ M p res0 rows cols Q hB (allPositions rows cols) _ h3

/-- Any property established by full evaluation and preserved by hinted
evaluation from a Q parent holds of every Valid cell of the finished
heatmap. -/
theorem computeHeatmap_gridQ (M : JSMath) (p : Params) (Q : ShotResult → Prop)
    (hA : ∀ fx fy r, evaluateShot M fx fy p = some r → Q r)
    (hB : ∀ parent, Q parent → ∀ fx fy r, evaluateShotWithHint M fx fy p parent.shotSpeed
      (parent.hoodAngleDeg * M.pi / 180) = some r → Q r) :
    GridQ Q (computeHeatmap M p).results := by
  have h0 : GridQ Q (List.replicate (⌈FIELD_WIDTH / p.gridRes⌉).toNat
      (List.replicate (⌈min FIELD_LENGTH (p.targetX + DISPLAY_BUFFER) / p.gridRes⌉).toNat
        (none : Cell))) := by
    intro r c res hres
    exact Option.noConfusion ((getCell_replicate _ _ r c).symm.trans hres)
  exact pipeline_gridQ M p p.gridRes _ _ _ _
    { cols := (⌈min FIELD_LENGTH (p.targetX + DISPLAY_BUFFER) / p.gridRes⌉).toNat,
      rows := (⌈FIELD_WIDTH / p.gridRes⌉).toNat, res := p.gridRes,
      results := List.replicate (⌈FIELD_WIDTH / p.gridRes⌉).toNat
        (List.replicate (⌈min FIELD_LENGTH (p.targetX + DISPLAY_BUFFER) / p.gridRes⌉).toNat
          (none : Cell)),
      minSpeed := ⊤, maxSpeed := ⊥, minAngle := ⊤, maxAngle := ⊥, validCount := 0 }
    Q hA hB h0

-- ── Speed bounds through the pipeline ────────────────────────

/-- The lower speed bound active in the evaluators: fixedSpeed in fixed
mode, minSpeed otherwise. -/
def sMinP (p : Params) : ℚ := if p.speedMode = "fixed" then p.fixedSpeed else p.minSpeed

/-- The upper speed bound active in the evaluators: fixedSpeed in fixed
mode, maxSpeed otherwise. -/
def sMaxP (p : Params) : ℚ := if p.speedMode = "fixed" then p.fixedSpeed else p.maxSpeed

/-- The sweep body keeps the previous best speed or adopts the current
candidate's. -/
theorem sweepBody_bestSpeed (M : JSMath) (tv rv rg hd sz ch : ℚ) (st : SweepState)
    (c : ℚ × ℚ) :
    (sweepBody M tv rv rg hd sz ch st c).bestSpeed = st.bestSpeed ∨
    (sweepBody M tv rv rg hd sz ch st c).bestSpeed = c.1 := by
  simp only [sweepBody]
  split_ifs <;> first | exact Or.inl rfl | exact Or.inr rfl

/-- Unpack membership in a mapped list. -/
theorem exists_of_mem_map {α β : Type} {l : List α} {f : α → β} {b : β} (h : b ∈ l.map f) :
    ∃ a, a ∈ l ∧ f a = b := List.mem_map.mp h

/-- Every swept candidate's speed lies within the sweep's speed bounds
(when they are ordered). -/
theorem sweepCandidates_speed_mem (M : JSMath) (minSpeed maxSpeed : ℚ) (steps : ℕ)
    (aMin aMax : ℚ) (hms : minSpeed ≤ maxSpeed) (c : ℚ × ℚ)
    (hc : c ∈ sweepCandidates M minSpeed maxSpeed steps aMin aMax) :
    minSpeed ≤ c.1 ∧ c.1 ≤ maxSpeed := by
  unfold sweepCandidates at hc
  rw [List.mem_flatMap] at hc
  obtain ⟨v, hv, hm⟩ := hc
  rw [List.mem_map] at hm
  obtain ⟨a, _, hca⟩ := hm
  obtain ⟨sq, hsq, hvs⟩ := exists_of_mem_map hv
  simp at hsq
  obtain ⟨si, hsi, hcast⟩ := hsq
  subst hcast
  subst hvs
  rw [← hca]
  show minSpeed ≤ minSpeed + (si : ℚ) * _ ∧ minSpeed + (si : ℚ) * _ ≤ maxSpeed
  by_cases h1 : 1 < steps
  · rw [if_pos h1]
    have hne : (0 : ℚ) < (steps : ℚ) - 1 := by
      have : (1 : ℚ) < (steps : ℚ) := by exact_mod_cast h1
      linarith
    have hstep0 : 0 ≤ (maxSpeed - minSpeed) / ((steps : ℚ) - 1) :=
      div_nonneg (by linarith) (le_of_lt hne)
    have hsile : (si : ℚ) ≤ (steps : ℚ) - 1 := by
      have : ((si : ℚ) + 1) ≤ (steps : ℚ) := by exact_mod_cast Nat.succ_le_of_lt hsi
      linarith
    constructor
    · have : 0 ≤ (si : ℚ) * ((maxSpeed - minSpeed) / ((steps : ℚ) - 1)) :=
        mul_nonneg (Nat.cast_nonneg si) hstep0
      linarith
    · have hmul : (si : ℚ) * ((maxSpeed - minSpeed) / ((steps : ℚ) - 1)) ≤
          ((steps : ℚ) - 1) * ((maxSpeed - minSpeed) / ((steps : ℚ) - 1)) :=
        mul_le_mul_of_nonneg_right hsile hstep0
      have hcanc : ((steps : ℚ) - 1) * ((maxSpeed - minSpeed) / ((steps : ℚ) - 1)) =
          maxSpeed - minSpeed := by
        rw [mul_comm, div_mul_cancel₀]
        exact ne_of_gt hne
      rw [hcanc] at hmul
      linarith
  · rw [if_neg h1]
    constructor
    · rw [mul_zero, add_zero]
    · rw [mul_zero, add_zero]
      exact hms

/-- The sweep's selected speed stays within its speed bounds. -/
theorem sweepSpeedAndAngle_speed_bounds (M : JSMath) (minSpeed maxSpeed : ℚ) (steps : ℕ)
    (aMin aMax tv rv rg hd sz ch : ℚ) (hms : minSpeed ≤ maxSpeed) :
    minSpeed ≤ (sweepSpeedAndAngle M minSpeed maxSpeed steps aMin aMax tv rv rg hd sz ch).speed ∧
    (sweepSpeedAndAngle M minSpeed maxSpeed steps aMin aMax tv rv rg hd sz ch).speed
      ≤ maxSpeed := by
  have hfold : ∀ (l : List (ℚ × ℚ)) (st : SweepState),
      minSpeed ≤ st.bestSpeed ∧ st.bestSpeed ≤ maxSpeed →
      (∀ c ∈ l, minSpeed ≤ c.1 ∧ c.1 ≤ maxSpeed) →
      minSpeed ≤ (l.foldl (sweepBody M tv rv rg hd sz ch) st).bestSpeed ∧
      (l.foldl (sweepBody M tv rv rg hd sz ch) st).bestSpeed ≤ maxSpeed := by
    intro l
    induction l with
    | nil => intro st h _; exact h
    | cons c l ih =>
      intro st h hb
      rw [List.foldl_cons]
      refine ih _ ?_ (fun c2 hm => hb c2 (List.mem_cons.mpr (Or.inr hm)))
      rcases sweepBody_bestSpeed M tv rv rg hd sz ch st c with hk | hk <;> rw [hk]
      · exact h
      · exact hb c (List.mem_cons.mpr (Or.inl rfl))
  exact hfold (sweepCandidates M minSpeed maxSpeed steps aMin aMax)
    { bestSpeed := (minSpeed + maxSpeed) / 2,
      bestAngle := (aMin * M.pi / 180 + aMax * M.pi / 180) / 2,
      bestError := ⊤, bestVy := 0, found := false }
    ⟨by show minSpeed ≤ (minSpeed + maxSpeed) / 2; linarith,
     by show (minSpeed + maxSpeed) / 2 ≤ maxSpeed; linarith⟩
    (fun c hc => sweepCandidates_speed_mem M minSpeed maxSpeed steps aMin aMax hms c hc)

/-- The seed stage's selected speed stays within the active bounds. -/
theorem sweepSeed_speed_bounds (M : JSMath) (fx fy : ℚ) (p : Params)
    (hms : sMinP p ≤ sMaxP p) :
    sMinP p ≤ (sweepSeed M fx fy p).speed ∧ (sweepSeed M fx fy p).speed ≤ sMaxP p := by
  exact sweepSpeedAndAngle_speed_bounds M (sMinP p) (sMaxP p) _ _ _ _ _ _ _ _ _ hms

/-- A successful evaluateShot stores the sweep seed's speed. -/
theorem evaluateShot_speed (M : JSMath) (fx fy : ℚ) (p : Params) (r : ShotResult)
    (h : evaluateShot M fx fy p = some r) :
    r.shotSpeed = (sweepSeed M fx fy p).speed := by
  simp only [evaluateShot] at h
  by_cases h1 : shotRange M fx fy p < 3/10
  · rw [if_pos h1] at h
    exact absurd h (fun hx => Option.noConfusion hx)
  · rw [if_neg h1] at h
    obtain ⟨a, ta, hv⟩ := trySpeedWithNewton_some M _ _ _ _ p _ r h
    exact (validate_gates M _ _ _ _ _ p _ r hv).2

/-- A successful hint-ring pass stores a speed within [sMin, sMax] when
the hint speed is within them and the ring deltas are nonnegative. -/
theorem hintRing_speed_bounds (M : JSMath) (range heightDiff : ℚ) (p : Params)
    (drag : DragConfig) (sMin sMax hintSpeed hintAngleRad : ℚ) :
    ∀ (ds : List ℚ) (r : ShotResult),
      (∀ d ∈ ds, 0 ≤ d) → sMin ≤ hintSpeed → hintSpeed ≤ sMax →
      hintRing M range heightDiff p drag sMin sMax hintSpeed hintAngleRad ds = some r →
      sMin ≤ r.shotSpeed ∧ r.shotSpeed ≤ sMax := by
  intro ds
  induction ds with
  | nil =>
    intro r _ _ _ h
    exact absurd h (fun hx => Option.noConfusion hx)
  | cons d ds ih =>
    intro r hd0 hlo hhi h
    have hdn : 0 ≤ d := hd0 d (List.mem_cons.mpr (Or.inl rfl))
    rw [hintRing] at h
    cases hloC : (if sMin ≤ hintSpeed - d then
        trySpeedWithNewton M (hintSpeed - d) hintAngleRad range heightDiff p drag
        else none) with
    | some rlo =>
      rw [hloC] at h
      simp only [] at h
      have h1 : sMin ≤ hintSpeed - d := by
        by_contra hc
        rw [if_neg hc] at hloC
        exact Option.noConfusion hloC
      rw [if_pos h1] at hloC
      obtain ⟨a, ta, hv⟩ := trySpeedWithNewton_some M _ _ _ _ p _ rlo hloC
      have hsp := (validate_gates M _ _ _ _ _ p _ rlo hv).2
      have hr : rlo = r := Option.some_inj.mp h
      subst hr
      rw [hsp]
      exact ⟨h1, by linarith⟩
    | none =>
      rw [hloC] at h
      simp only [] at h
      cases hhiC : (if hintSpeed + d ≤ sMax then
          trySpeedWithNewton M (hintSpeed + d) hintAngleRad range heightDiff p drag
          else none) with
      | some rhi =>
        rw [hhiC] at h
        simp only [] at h
        have h2 : hintSpeed + d ≤ sMax := by
          by_contra hc
          rw [if_neg hc] at hhiC
          exact Option.noConfusion hhiC
        rw [if_pos h2] at hhiC
        obtain ⟨a, ta, hv⟩ := trySpeedWithNewton_some M _ _ _ _ p _ rhi hhiC
        have hsp := (validate_gates M _ _ _ _ _ p _ rhi hv).2
        have hr : rhi = r := Option.some_inj.mp h
        subst hr
        rw [hsp]
        exact ⟨by linarith, h2⟩
      | none =>
        rw [hhiC] at h
        simp only [] at h
        exact ih r (fun d2 hm => hd0 d2 (List.mem_cons.mpr (Or.inr hm))) hlo hhi h

/-- A successful evaluateShotWithHint from an in-bounds hint speed stores
an in-bounds speed. -/
theorem evaluateShotWithHint_speed (M : JSMath) (fx fy : ℚ) (p : Params)
    (hintSpeed hintAngleRad : ℚ) (r : ShotResult)
    (h : evaluateShotWithHint M fx fy p hintSpeed hintAngleRad = some r)
    (hlo : sMinP p ≤ hintSpeed) (hhi : hintSpeed ≤ sMaxP p) :
    sMinP p ≤ r.shotSpeed ∧ r.shotSpeed ≤ sMaxP p := by
  simp only [evaluateShotWithHint] at h
  by_cases h1 : shotRange M fx fy p < 3/10
  · rw [if_pos h1] at h
    exact absurd h (fun hx => Option.noConfusion hx)
  rw [if_neg h1] at h
  cases hd : trySpeedWithNewton M hintSpeed hintAngleRad (shotRange M fx fy p)
      (p.targetZ - p.shooterZ) p (dragFromParams M p) with
  | some rd =>
    rw [hd] at h
    simp only [] at h
    obtain ⟨a, ta, hv⟩ := trySpeedWithNewton_some M _ _ _ _ p _ rd hd
    have hsp := (validate_gates M _ _ _ _ _ p _ rd hv).2
    have hr : rd = r := Option.some_inj.mp h
    subst hr
    rw [hsp]
    exact ⟨hlo, hhi⟩
  | none =>
    rw [hd] at h
    simp only [] at h
    exact hintRing_speed_bounds M _ _ p _ _ _ _ _ [1/5, 2/5, 3/5, 4/5] r
      (by
        intro d2 hm
        simp at hm
        rcases hm with h5 | h5 | h5 | h5 <;> rw [h5] <;> norm_num) hlo hhi h

/-- Claim C10: every ShotResult stored in the grid returned by
computeHeatmap has shotSpeed within the configured speed bounds — equal
to fixedSpeed when speed mode is fixed, and within [minSpeed, maxSpeed]
in range mode (with ordered bounds) — including cells filled by the
hinted propagation and neighbor-recovery phases, whose hint speeds are
in range only because every hint descends from an in-range result. -/
theorem C10_heatmap_speed_bounds (M : JSMath) (p : Params)
    (hms : p.speedMode ≠ "fixed" → p.minSpeed ≤ p.maxSpeed)
    (r c : ℕ) (res : ShotResult)
    (h : getCell (computeHeatmap M p).results r c = some (some res)) :
    (p.speedMode = "fixed" → res.shotSpeed = p.fixedSpeed) ∧
    (p.speedMode ≠ "fixed" → p.minSpeed ≤ res.shotSpeed ∧ res.shotSpeed ≤ p.maxSpeed) := by
  have hms2 : sMinP p ≤ sMaxP p := by
    unfold sMinP sMaxP
    by_cases hf : p.speedMode = "fixed"
    · rw [if_pos hf, if_pos hf]
    · rw [if_neg hf, if_neg hf]
      exact hms hf
  have hA : ∀ fx fy r0, evaluateShot M fx fy p = some r0 →
      sMinP p ≤ r0.shotSpeed ∧ r0.shotSpeed ≤ sMaxP p := by
    intro fx fy r0 h0
    rw [evaluateShot_speed M fx fy p r0 h0]
    exact sweepSeed_speed_bounds M fx fy p hms2
  have hB : ∀ parent : ShotResult, (sMinP p ≤ parent.shotSpeed ∧ parent.shotSpeed ≤ sMaxP p) →
      ∀ fx fy r0, evaluateShotWithHint M fx fy p parent.shotSpeed
        (parent.hoodAngleDeg * M.pi / 180) = some r0 →
      sMinP p ≤ r0.shotSpeed ∧ r0.shotSpeed ≤ sMaxP p := by
    intro parent hq fx fy r0 h0
    exact evaluateShotWithHint_speed M fx fy p parent.shotSpeed _ r0 h0 hq.1 hq.2
  have hQ := computeHeatmap_gridQ M p
    (fun r0 => sMinP p ≤ r0.shotSpeed ∧ r0.shotSpeed ≤ sMaxP p) hA hB r c res h
  constructor
  · intro hf
    have h1 : sMinP p = p.fixedSpeed := by unfold sMinP; rw [if_pos hf]
    have h2 : sMaxP p = p.fixedSpeed := by unfold sMaxP; rw [if_pos hf]
    rw [h1, h2] at hQ
    exact le_antisymm hQ.2 hQ.1
  · intro hf
    have h1 : sMinP p = p.minSpeed := by unfold sMinP; rw [if_neg hf]
    have h2 : sMaxP p = p.maxSpeed := by unfold sMaxP; rw [if_neg hf]
    rw [h1, h2] at hQ
    exact hQ

-- ── Witness: a 1×1 heatmap at the Mw/pw configuration ────────

/-- A straggler pass skips an already computed cell. -/
theorem sweepStraggler_skip (M : JSMath) (p : Params) (res0 : ℚ) (d : HeatmapData)
    (rc : ℕ × ℕ) (h : getCell d.results rc.1 rc.2 ≠ none) :
    sweepStraggler M p res0 d rc = d := by
  simp only [sweepStraggler]
  rw [if_pos h]

/-- A recovery pass skips any cell that is not null. -/
theorem recoverCell_skip (M : JSMath) (p : Params) (res0 : ℚ) (rows cols : ℕ)
    (d : HeatmapData) (rc : ℕ × ℕ) (h : getCell d.results rc.1 rc.2 ≠ some none) :
    recoverCell M p res0 rows cols d rc = d := by
  simp only [recoverCell]
  rw [if_pos h]

/-- A propagation step to an out-of-bounds neighbor is a no-op. -/
theorem bfsNeighbor_oob (M : JSMath) (p : Params) (res0 : ℚ) (rows cols : ℕ)
    (parent : ShotResult) (pr pc : ℕ) (st : HeatmapData × List (ℕ × ℕ)) (dir : ℤ × ℤ)
    (h : ¬(0 ≤ (pr : ℤ) + dir.1 ∧ (pr : ℤ) + dir.1 < (rows : ℤ) ∧
      0 ≤ (pc : ℤ) + dir.2 ∧ (pc : ℤ) + dir.2 < (cols : ℤ))) :
    bfsNeighbor M p res0 rows cols parent pr pc st dir = st := by
  simp only [bfsNeighbor]
  rw [if_neg h]

/-- One unfolding of the propagation loop on a nonempty queue. -/
theorem bfsLoop_succ_cons (M : JSMath) (p : Params) (res0 : ℚ) (rows cols n : ℕ)
    (d : HeatmapData) (pr pc : ℕ) (rest : List (ℕ × ℕ)) :
    bfsLoop M p res0 rows cols (n + 1) d ((pr, pc) :: rest) =
      match getCell d.results pr pc with
      | some (some parent) =>
        bfsLoop M p res0 rows cols n
          (dirList.foldl (bfsNeighbor M p res0 rows cols parent pr pc) (d, rest)).1
          (dirList.foldl (bfsNeighbor M p res0 rows cols parent pr pc) (d, rest)).2
      | _ => bfsLoop M p res0 rows cols n d rest := rfl

/-- The witness heatmap's freshly allocated 1×1 state. -/
def dw0 : HeatmapData :=
  { cols := 1, rows := 1, res := pw.gridRes, results := [[none]],
    minSpeed := ⊤, maxSpeed := ⊥, minAngle := ⊤, maxAngle := ⊥, validCount := 0 }

/-- The witness heatmap's state after its single cell is written. -/
def dw1 : HeatmapData := { dw0 with results := [[some (some rw0)]] }

/-- The witness grid spans one column. -/
theorem wCols : (⌈min FIELD_LENGTH (pw.targetX + DISPLAY_BUFFER) / pw.gridRes⌉).toNat = 1 := by
  have h1 : min FIELD_LENGTH (pw.targetX + DISPLAY_BUFFER) / pw.gridRes = 8/9 := by
    norm_num [FIELD_LENGTH, DISPLAY_BUFFER, pw, min_def]
  rw [h1]
  have h2 : (⌈(8/9 : ℚ)⌉ : ℤ) = 1 := by
    rw [Int.ceil_eq_iff]
    norm_num
  rw [h2]
  rfl

/-- The witness grid spans one row. -/
theorem wRows : (⌈FIELD_WIDTH / pw.gridRes⌉).toNat = 1 := by
  have h1 : FIELD_WIDTH / pw.gridRes = 807/900 := by
    norm_num [FIELD_WIDTH, pw]
  rw [h1]
  have h2 : (⌈(807/900 : ℚ)⌉ : ℤ) = 1 := by
    rw [Int.ceil_eq_iff]
    norm_num
  rw [h2]
  rfl

/-- The witness seed spacing is one cell. -/
theorem wSpace : (min 4 (max 1 ⌊(3/4 : ℚ) / pw.gridRes⌋)).toNat = 1 := by
  have h1 : (3/4 : ℚ) / pw.gridRes = 1/12 := by norm_num [pw]
  rw [h1]
  have h2 : (⌊(1/12 : ℚ)⌋ : ℤ) = 0 := by norm_num
  rw [h2]
  decide

/-- The witness seed phase visits exactly the single cell. -/
theorem wSeedPos : seedPositions 1 1 1 = [(0, 0)] := by decide

/-- The witness grid has exactly one cell. -/
theorem wAllPos : allPositions 1 1 = [(0, 0)] := by decide

/-- The witness seed write stores the feasible wShot result. -/
theorem wWrite : writeEval Mw pw pw.gridRes (dw0, []) (0, 0) = (accumStats dw1 rw0, [(0, 0)]) := by
  rw [writeEval_eq]
  rw [show (((0, 0) : ℕ × ℕ).2) = (0 : ℕ) from rfl]
  rw [show (((0, 0) : ℕ × ℕ).1) = (0 : ℕ) from rfl]
  rw [show ((((0 : ℕ) : ℚ) + 1/2) * pw.gridRes) = (9/2 : ℚ) from by norm_num [pw]]
  rw [wShot]
  rfl

/-- The witness propagation loop finds no uncomputed neighbor. -/
theorem wBfs : bfsLoop Mw pw pw.gridRes 1 1 (1 * 1) (accumStats dw1 rw0) [(0, 0)]
    = accumStats dw1 rw0 := by
  rw [show (1 * 1 : ℕ) = 0 + 1 from rfl]
  rw [bfsLoop_succ_cons]
  rw [show getCell (accumStats dw1 rw0).results 0 0 = some (some rw0) from rfl]
  show bfsLoop Mw pw pw.gridRes 1 1 0
      (dirList.foldl (bfsNeighbor Mw pw pw.gridRes 1 1 rw0 0 0) (accumStats dw1 rw0, [])).1
      (dirList.foldl (bfsNeighbor Mw pw pw.gridRes 1 1 rw0 0 0) (accumStats dw1 rw0, [])).2
    = accumStats dw1 rw0
  simp only [dirList, List.foldl_cons, List.foldl_nil]
  rw [bfsNeighbor_oob Mw pw pw.gridRes 1 1 rw0 0 0 _ (-1, 0) (by decide)]
  rw [bfsNeighbor_oob Mw pw pw.gridRes 1 1 rw0 0 0 _ (1, 0) (by decide)]
  rw [bfsNeighbor_oob Mw pw pw.gridRes 1 1 rw0 0 0 _ (0, -1) (by decide)]
  rw [bfsNeighbor_oob Mw pw pw.gridRes 1 1 rw0 0 0 _ (0, 1) (by decide)]
  rfl

/-- The witness straggler pass skips the computed cell. -/
theorem wStrag : sweepStraggler Mw pw pw.gridRes (accumStats dw1 rw0) (0, 0)
    = accumStats dw1 rw0 :=
  sweepStraggler_skip Mw pw pw.gridRes (accumStats dw1 rw0) (0, 0)
    (by rw [accumStats_results]; exact fun hx => Option.noConfusion hx)

/-- The witness recovery pass skips the valid cell. -/
theorem wRecov : recoverCell Mw pw pw.gridRes 1 1 (accumStats dw1 rw0) (0, 0)
    = accumStats dw1 rw0 :=
  recoverCell_skip Mw pw pw.gridRes 1 1 (accumStats dw1 rw0) (0, 0)
    (by
      rw [accumStats_results]
      exact fun hx => Option.noConfusion (Option.some_inj.mp hx))

/-- The full witness heatmap stores the wShot result in its single
cell. -/
theorem wHeatCell : getCell (computeHeatmap Mw pw).results 0 0 = some (some rw0) := by
  simp only [computeHeatmap]
  rw [wCols, wRows, wSpace, wSeedPos, wAllPos]
  simp only [List.foldl_cons, List.foldl_nil]
  rw [show List.replicate 1 (List.replicate 1 (none : Cell)) = [[none]] from rfl]
  rw [show ({ cols := 1, rows := 1, res := pw.gridRes, results := [[(none : Cell)]], minSpeed := ⊤, maxSpeed := ⊥, minAngle := ⊤, maxAngle := ⊥, validCount := 0 } : HeatmapData) = dw0 from rfl]
  rw [wWrite]
  rw [show ((accumStats dw1 rw0, ([(0, 0)] : List (ℕ × ℕ))).1) = accumStats dw1 rw0 from rfl]
  rw [show ((accumStats dw1 rw0, ([(0, 0)] : List (ℕ × ℕ))).2) = [((0 : ℕ), (0 : ℕ))] from rfl]
  rw [wBfs, wStrag, wRecov, accumStats_results]
  rfl

/-- Witness for C10: at the Mw/pw configuration the single heatmap cell
holds the wShot result, whose speed meets the fixed-mode bound. -/
theorem C10_heatmap_speed_bounds_w :
    (pw.speedMode ≠ "fixed" → pw.minSpeed ≤ pw.maxSpeed) ∧
    getCell (computeHeatmap Mw pw).results 0 0 = some (some rw0) ∧
    (pw.speedMode = "fixed" → rw0.shotSpeed = pw.fixedSpeed) ∧
    (pw.speedMode ≠ "fixed" → pw.minSpeed ≤ rw0.shotSpeed ∧ rw0.shotSpeed ≤ pw.maxSpeed) :=
  ⟨fun hne => absurd rfl hne, wHeatCell,
   C10_heatmap_speed_bounds Mw pw (fun hne => absurd rfl hne) 0 0 rw0 wHeatCell⟩
